import Mathlib

/-!
Verification development for the frame-based video-game recommendation
engine in `lab3.py` (Minsky-style frames).  The Python classes `Slot`,
`Frame`, `KnowledgeBase` (object graph), `WorkingMemory`, `InferenceEngine`
and the relevant parts of `ExplanationComponent` are shallowly embedded as
executable Lean functions.  Python's object heap of frames is modelled as a
name-keyed list of frames (`Env`); in-place mutation becomes explicit
environment passing; Python floats become exact rationals (`ℚ`); the
possibly non-terminating AKO-chain walks get an explicit fuel parameter,
with `none` marking fuel exhaustion.  IF-NEEDED trigger procedures are kept
abstract as functions from the owning frame's name (the "frame as context"
argument) to an optional computed value; IF-ADDED / IF-REMOVED triggers
perform only side effects outside the modelled state and are not carried.
-/

namespace Lab3

set_option maxRecDepth 400000

attribute [local semireducible] Rat.add Rat.mul Rat.inv Rat.sub Rat.ofScientific

/-- `DataType` enum of `lab3.py` (slot data types). -/
inductive DataType where
  | INTEGER
  | TEXT
  | BOOLEAN
  | FRAME
  | LIST
deriving DecidableEq, Repr

/-- `InheritanceType` enum of `lab3.py` (U / S / R / O). -/
inductive InheritanceType where
  | U
  | S
  | R
  | O
deriving DecidableEq, Repr

/-- Python runtime values that can sit in a slot: ints, floats, bools,
strings, references to other frames (modelled by the referenced frame's
name, since the heap is name-keyed) and lists. -/
inductive Value where
  | int (n : Int)
  | float (q : ℚ)
  | bool (b : Bool)
  | str (s : String)
  | frameRef (name : String)
  | list (vs : List Value)

mutual

/-- Python `==` on the modelled values: numeric kinds compare by numeric
value (`2 == 2.0`, `True == 1` hold in Python since `bool` is an `int`
subclass), strings by content, frame objects by identity (here: by name,
the heap being name-keyed), lists elementwise; cross-kind comparisons are
otherwise false. -/
def pyEq : Value → Value → Bool
  | .int a, .int b => a == b
  | .int a, .float b => (a : ℚ) == b
  | .int a, .bool b => a == (if b then 1 else 0)
  | .float a, .float b => a == b
  | .float a, .int b => a == (b : ℚ)
  | .float a, .bool b => a == (if b then (1 : ℚ) else 0)
  | .bool a, .bool b => a == b
  | .bool a, .int b => (if a then (1 : Int) else 0) == b
  | .bool a, .float b => (if a then (1 : ℚ) else 0) == b
  | .str a, .str b => a == b
  | .frameRef a, .frameRef b => a == b
  | .list a, .list b => pyEqList a b
  | _, _ => false

/-- Elementwise Python `==` on lists. -/
def pyEqList : List Value → List Value → Bool
  | [], [] => true
  | x :: xs, y :: ys => pyEq x y && pyEqList xs ys
  | _, _ => false

end

/-- Python truthiness (`if value:`) for the modelled values; a `Frame`
object is always truthy. -/
def pyTruthy : Value → Bool
  | .int n => n != 0
  | .float q => q != 0
  | .bool b => b
  | .str s => s != ""
  | .frameRef _ => true
  | .list vs => !vs.isEmpty

/-- Truthiness of a `get_slot_value` result (`None` is falsy). -/
def pyTruthyOpt : Option Value → Bool
  | none => false
  | some v => pyTruthy v

/-- Python `==` between a slot value and a string literal: true only for an
equal `str`; comparisons across types (and with `None`) are false. -/
def pyEqStr (v : Option Value) (s : String) : Bool :=
  match v with
  | some (.str t) => t == s
  | _ => false

/-- Python `value in list_of_strings` membership test. -/
def pyInStrList (v : Option Value) (l : List String) : Bool :=
  match v with
  | some (.str t) => l.contains t
  | _ => false

/-- `type(value).__name__` for the modelled values (`None` → `NoneType`). -/
def pyTypeName : Option Value → String
  | none => "NoneType"
  | some (.int _) => "int"
  | some (.float _) => "float"
  | some (.bool _) => "bool"
  | some (.str _) => "str"
  | some (.frameRef _) => "Frame"
  | some (.list _) => "list"

/-- `self.data_type.value` (the enum payload string used in error text). -/
def DataType.pyValue : DataType → String
  | .INTEGER => "INTEGER"
  | .TEXT => "TEXT"
  | .BOOLEAN => "BOOLEAN"
  | .FRAME => "FRAME"
  | .LIST => "LIST"

/-- An IF-NEEDED trigger procedure: invoked with the owning frame as
context (modelled by the frame's name in the name-keyed heap) and returning
a computed value or `None`.  IF-ADDED / IF-REMOVED procedures only perform
side effects outside the modelled state, so only their absence/presence
would matter and no claim depends on them; they are not carried. -/
abbrev IfNeededProc := String → Option Value

/-- The `Slot` class of `lab3.py`: `name`, current `value`, declared
`data_type`, `inheritance` mode, `range_values` (empty = unconstrained),
the registered IF-NEEDED trigger (from the `triggers` dict), and the
`default_value` captured at construction. -/
structure Slot where
  name : String
  value : Option Value
  data_type : DataType
  inheritance : InheritanceType
  range_values : List Value
  if_needed : Option IfNeededProc
  default_value : Option Value

/-- `Slot.__init__`: `default_value` is the construction-time `value`.
Note that `__init__` performs no validation of `value` against
`data_type` or `range_values`. -/
def Slot.init (name : String) (value : Option Value) (data_type : DataType)
    (inheritance : InheritanceType) (range_values : List Value)
    (if_needed : Option IfNeededProc) : Slot :=
  ⟨name, value, data_type, inheritance, range_values, if_needed, value⟩

/-- `Slot._validate_type`: `None` always passes; `INTEGER` admits ints and
floats but not bools (`isinstance(value, (int, float)) and not
isinstance(value, bool)`); the other kinds check the matching class. -/
def Slot.validate_type (s : Slot) (v : Option Value) : Bool :=
  match v with
  | none => true
  | some v =>
    match s.data_type with
    | .INTEGER =>
      match v with
      | .int _ => true
      | .float _ => true
      | _ => false
    | .TEXT =>
      match v with
      | .str _ => true
      | _ => false
    | .BOOLEAN =>
      match v with
      | .bool _ => true
      | _ => false
    | .FRAME =>
      match v with
      | .frameRef _ => true
      | _ => false
    | .LIST =>
      match v with
      | .list _ => true
      | _ => false

/-- `Slot._validate_range`: an empty `range_values` accepts everything,
otherwise Python's `value in self.range_values` membership; `None` is never
an element of a knowledge-file range list, so it fails a non-empty range. -/
def Slot.validate_range (s : Slot) (v : Option Value) : Bool :=
  if s.range_values.isEmpty then true
  else
    match v with
    | some x => s.range_values.any (fun r => pyEq r x)
    | none => false

/-- The typed error (`ValueError`) raised by `Slot.set_value`: each
constructor carries exactly the interpolants of the corresponding f-string
message.  A type failure interpolates the type name of the offending value
(not the value itself), the slot name and the expected data-type tag, as
in: Неверный тип данных … для слота …. Ожидается ….  A range failure
interpolates the offending value, the permitted range list and the slot
name, as in: Значение … не входит в допустимый диапазон … для слота …. -/
inductive SetError where
  | typeError (valueTypeName : String) (slotName : String) (expected : String)
  | rangeError (value : Option Value) (rangeValues : List Value) (slotName : String)

/-- The slot name carried in an error message. -/
def SetError.slotNameOf : SetError → String
  | .typeError _ n _ => n
  | .rangeError _ _ n => n

/-- The offending values literally interpolated into an error message (the
type-failure message interpolates only the value's type name, not the
value). -/
def SetError.mentionedValues : SetError → List (Option Value)
  | .typeError _ _ _ => []
  | .rangeError v _ _ => [v]

/-- `Slot.set_value`: validate the type, then the range, raising before any
assignment on failure; on success store the value.  (The subsequent
IF-ADDED trigger call only has effects outside the modelled state.) -/
def Slot.set_value (s : Slot) (v : Option Value) : Except SetError Slot :=
  if ¬ s.validate_type v then
    .error (.typeError (pyTypeName v) s.name s.data_type.pyValue)
  else if ¬ s.validate_range v then
    .error (.rangeError v s.range_values s.name)
  else
    .ok { s with value := v }

/-- `Slot.get_value`: an empty value with a non-empty `default_value`
returns the default; an empty value with an IF-NEEDED trigger invokes the
trigger, and only if the computed result passes type and range validation
caches it into the slot (after the trigger has returned) and returns it —
an invalid result is discarded and `None` is returned with the slot left
empty; otherwise the stored value is returned.  Returns the (possibly
cached-into) slot alongside the result. -/
def Slot.get_value (s : Slot) (ctx : String) : Option Value × Slot :=
  if s.value.isNone ∧ s.default_value.isSome then
    (s.default_value, s)
  else if s.value.isNone then
    match s.if_needed with
    | some proc =>
      let computed := proc ctx
      if s.validate_type computed ∧ s.validate_range computed then
        (computed, { s with value := computed })
      else
        (none, s)
    | none => (none, s)
  else
    (s.value, s)

/-- Dict assignment `self.slots[slot.name] = slot`: replace the (unique)
existing slot of that name in place, keeping its position, else append. -/
def slotsUpdate : List Slot → Slot → List Slot
  | [], s => [s]
  | t :: ts, s => if t.name == s.name then s :: ts else t :: slotsUpdate ts s

/-- Raw in-place write `self.slots[name].value = v` (used by `set_ako`):
no validation; a missing slot of that name cannot occur on a constructed
frame, the write is then a no-op in the model. -/
def slotsSetValueRaw : List Slot → String → Option Value → List Slot
  | [], _, _ => []
  | t :: ts, n, v =>
    if t.name == n then { t with value := v } :: ts
    else t :: slotsSetValueRaw ts n v

/-- The `Frame` class: a name and the insertion-ordered `slots` dict. -/
structure Frame where
  name : String
  slots : List Slot

/-- The system slot `Slot("AKO", None, DataType.FRAME, InheritanceType.SAME)`
added by `Frame.__init__`. -/
def akoSlot : Slot :=
  Slot.init "AKO" none DataType.FRAME InheritanceType.S [] none

/-- `Frame.__init__`: a fresh frame holds exactly the AKO system slot. -/
def Frame.init (name : String) : Frame :=
  ⟨name, [akoSlot]⟩

/-- `Frame.get_slot` / `slot_name in self.slots`: dict lookup by name. -/
def Frame.get_slot (f : Frame) (sname : String) : Option Slot :=
  f.slots.find? (fun s => s.name == sname)

/-- `Frame.add_slot`: dict assignment keyed by the slot's name. -/
def Frame.add_slot (f : Frame) (s : Slot) : Frame :=
  ⟨f.name, slotsUpdate f.slots s⟩

/-- `self.slots["AKO"].value` — the raw AKO backlink. -/
def Frame.akoValue (f : Frame) : Option Value :=
  match f.get_slot "AKO" with
  | some s => s.value
  | none => none

/-- `Frame.set_ako`: the deliberate unvalidated write of the structural
backlink, `self.slots["AKO"].value = parent_frame`. -/
def Frame.set_ako (f : Frame) (parent : Value) : Frame :=
  ⟨f.name, slotsSetValueRaw f.slots "AKO" (some parent)⟩

/-- `Frame.create_proto_frame`: `Frame(f"Proto_{self.name}")` whose AKO is
set to the source frame (here: a reference to its name). -/
def Frame.create_proto_frame (gameName : String) : Frame :=
  (Frame.init ("Proto_" ++ gameName)).set_ako (.frameRef gameName)

/-- The duck-typed classification used when `set_slot_value` synthesizes a
missing slot: bool → BOOLEAN, numeric non-bool → INTEGER, frame → FRAME,
list → LIST, anything else (including `None`) → TEXT. -/
def classifyValue : Option Value → DataType
  | some (.bool _) => .BOOLEAN
  | some (.int _) => .INTEGER
  | some (.float _) => .INTEGER
  | some (.frameRef _) => .FRAME
  | some (.list _) => .LIST
  | _ => .TEXT

/-- `Frame.set_slot_value`: a missing slot is synthesized (unvalidated,
overridable, unconstrained, triggerless) from the value's shape; an
existing slot goes through the validated `Slot.set_value` path. -/
def Frame.set_slot_value (f : Frame) (sname : String) (v : Option Value) :
    Except SetError Frame :=
  match f.get_slot sname with
  | none =>
    .ok (f.add_slot (Slot.init sname v (classifyValue v) .O [] none))
  | some slot =>
    match slot.set_value v with
    | .ok slot1 => .ok (f.add_slot slot1)
    | .error e => .error e

/-- The Python object heap of frames, keyed by frame name (names are
unique in every reachable heap: the loader's dict is name-keyed and proto
frame names prefix distinct game names).  Lookups take the first match. -/
abbrev Env := List Frame

/-- Heap lookup by frame name (first match). -/
def findFrame : Env → String → Option Frame
  | [], _ => none
  | f :: fs, n => if f.name == n then some f else findFrame fs n

/-- Write back an in-place mutation of a frame: replace the first frame of
that name. -/
def updateFrame : Env → Frame → Env
  | [], _ => []
  | g :: gs, f => if g.name == f.name then f :: gs else g :: updateFrame gs f

/-- `Frame.get_slot_value` with an explicit fuel bound on the AKO walk
(`none` = fuel exhausted, a marker for the walk not having terminated).
Mirrors lines 155-168: read the locally declared slot through
`Slot.get_value` (possibly caching an IF-NEEDED result in place), return a
non-`None` result, otherwise follow `self.slots["AKO"].value` (read after
any caching) to the parent frame and recurse; no parent → `None`.  The
source has no cycle defense: the fuel is the model's, not the code's. -/
def getSlotValueF : Nat → Env → String → String → Option (Option Value × Env)
  | 0, _, _, _ => none
  | Nat.succ n, env, fname, sname =>
    match findFrame env fname with
    | none => some (none, env)
    | some f =>
      let contAko := fun (env1 : Env) (f1 : Frame) =>
        match f1.akoValue with
        | some (.frameRef p) =>
          match findFrame env1 p with
          | some _ => getSlotValueF n env1 p sname
          | none => some (none, env1)
        | _ => (some (none, env1) : Option (Option Value × Env))
      match f.get_slot sname with
      | some slot =>
        match slot.get_value fname with
        | (some v, slot1) => some (some v, updateFrame env (f.add_slot slot1))
        | (none, slot1) =>
          let f1 := f.add_slot slot1
          contAko (updateFrame env f1) f1
      | none => contAko env f

/-- `get_slot_value` as the engine consumes it: fuel exhaustion collapses
to the absence indicator with the heap unchanged (every reachable
knowledge base has a short acyclic chain, so engine theorems either carry
enough fuel or do not depend on the distinction). -/
def getSV (fuel : Nat) (env : Env) (fname sname : String) : Option Value × Env :=
  match getSlotValueF fuel env fname sname with
  | some r => r
  | none => (none, env)

/-- `Frame.is_a` with fuel: walk the AKO chain comparing names; the walk
reads `slots["AKO"].value` directly (no triggers, no mutation) and has no
cycle defense in the source. -/
def isAF : Nat → Env → String → String → Option Bool
  | 0, _, _, _ => none
  | Nat.succ n, env, fname, ftype =>
    match findFrame env fname with
    | none => some false
    | some f =>
      if f.name == ftype then some true
      else
        match f.akoValue with
        | some (.frameRef p) =>
          match findFrame env p with
          | some _ => isAF n env p ftype
          | none => some false
        | _ => some false

/-- `proto.slots["AKO"].value` followed by `.name` on a frame-valued
backlink (`if ako_frame:` — a Frame object is truthy): the referenced
frame's name, `none` when the backlink is empty or not a frame. -/
def akoNameInEnv (env : Env) (fname : String) : Option String :=
  match findFrame env fname with
  | some f =>
    match f.akoValue with
    | some (.frameRef p) => some p
    | _ => none
  | none => none

/-- A preference mapping: the flat string-valued dict the CLI hands over. -/
abbrev Prefs := List (String × String)

/-- `preferences.get(key)` — dict lookup, `None` when absent. -/
def pget (prefs : Prefs) (k : String) : Option String :=
  (prefs.find? (fun kv => kv.1 == k)).map (fun kv => kv.2)

/-- `InferenceEngine.set_user_preferences`: rebuild the mapping with the
ten recognized keys, each defaulting to `"нет"` when absent. -/
def process_preferences (prefs : Prefs) : Prefs :=
  [ ("имеет_ПК", (pget prefs "имеет_ПК").getD "нет"),
    ("имеет_Playstation", (pget prefs "имеет_Playstation").getD "нет"),
    ("имеет_Xbox", (pget prefs "имеет_Xbox").getD "нет"),
    ("нравятся_экшены", (pget prefs "нравятся_экшены").getD "нет"),
    ("нравятся_RPG", (pget prefs "нравятся_RPG").getD "нет"),
    ("нравятся_стратегии", (pget prefs "нравятся_стратегии").getD "нет"),
    ("нравятся_симуляторы", (pget prefs "нравятся_симуляторы").getD "нет"),
    ("нравятся_приключения", (pget prefs "нравятся_приключения").getD "нет"),
    ("имеет_онлайн", (pget prefs "имеет_онлайн").getD "нет"),
    ("короткие_сессии", (pget prefs "короткие_сессии").getD "нет") ]

/-- `InferenceEngine._determine_user_platform`: PC over PlayStation over
Xbox, else unknown. -/
def determine_user_platform (prefs : Prefs) : String :=
  if pget prefs "имеет_ПК" == some "да" then "ПК"
  else if pget prefs "имеет_Playstation" == some "да" then "Playstation"
  else if pget prefs "имеет_Xbox" == some "да" then "Xbox"
  else "неизвестно"

/-- `InferenceEngine._determine_available_genres`: the appended genre
labels in source order; strategies and simulators share the one
`"стратегия"` label, `"приключение"` additionally needs online access. -/
def determine_available_genres (prefs : Prefs) : List String :=
  (if pget prefs "нравятся_экшены" == some "да" then ["экшен"] else []) ++
  (if pget prefs "нравятся_RPG" == some "да" then ["RPG"] else []) ++
  (if pget prefs "нравятся_стратегии" == some "да"
      || pget prefs "нравятся_симуляторы" == some "да"
   then ["стратегия"] else []) ++
  (if pget prefs "нравятся_приключения" == some "да"
      && pget prefs "имеет_онлайн" == some "да"
   then ["приключение"] else [])

/-- Platform criterion of `_calculate_compatibility` (lines 654-661) as the
pair (contribution to `score`, contribution to `total_possible`): declared
requirement (truthy) opens weight 0.35; exact match or `"мультиплатформа"`
earns it in full; a PC user against a `"Playstation"`/`"Xbox"` requirement
earns the 0.15 partial credit. -/
def platformScore (rp : Option Value) (userPlatform : String) : ℚ × ℚ :=
  if pyTruthyOpt rp then
    if pyEqStr rp userPlatform || pyEqStr rp "мультиплатформа" then
      (0.35, 0.35)
    else if userPlatform == "ПК" && (pyEqStr rp "Playstation" || pyEqStr rp "Xbox") then
      (0.15, 0.35)
    else (0, 0.35)
  else (0, 0)

/-- Genre criterion (lines 663-668): weight 0.35, earned in full iff the
required genre is among the user's available genres. -/
def genreScore (rg : Option Value) (genres : List String) : ℚ × ℚ :=
  if pyTruthyOpt rg then
    (if pyInStrList rg genres then (0.35, 0.35) else (0, 0.35))
  else (0, 0)

/-- Online criterion (lines 670-678): applicable whenever the copied
`требует_онлайн` slot is not `None`; matching requirement/access earns
0.15; otherwise a game that does not require online (necessarily with the
user online, the other pairing being an exact match) earns 0.1. -/
def onlineScore (ro : Option Value) (hasOnline : Bool) : ℚ × ℚ :=
  match ro with
  | none => (0, 0)
  | some v =>
    let r := pyTruthy v
    if (r && hasOnline) || (!r && !hasOnline) then (0.15, 0.15)
    else if !r then (0.1, 0.15)
    else (0, 0.15)

/-- Session-length criterion (lines 680-689): weight 0.15; the exact
pairings short/short-liking and long/long-liking earn 0.15, every other
declared pairing earns the 0.05 partial credit. -/
def sessionScore (rl : Option Value) (prefersShort : Bool) : ℚ × ℚ :=
  if pyTruthyOpt rl then
    if (pyEqStr rl "короткая" && prefersShort)
        || (pyEqStr rl "длинная" && !prefersShort) then
      (0.15, 0.15)
    else (0.05, 0.15)
  else (0, 0)

/-- The scoring core of `_calculate_compatibility` on the four fetched
slot values: `score / total_possible`, or 0.0 when no criterion was
applicable.  Python float arithmetic is idealized as exact rationals. -/
def compatibilityScore (rp rg ro rl : Option Value) (userPlatform : String)
    (genres : List String) (hasOnline prefersShort : Bool) : ℚ :=
  let p := platformScore rp userPlatform
  let g := genreScore rg genres
  let o := onlineScore ro hasOnline
  let s := sessionScore rl prefersShort
  let total := p.2 + g.2 + o.2 + s.2
  if total > 0 then (p.1 + g.1 + o.1 + s.1) / total else 0

/-- `InferenceEngine._calculate_compatibility`: fetch the four proto-frame
slots in source order (threading heap mutations from possible IF-NEEDED
caching; the source interleaves the pure scoring arithmetic between the
four reads, which cannot observe the heap) and score them. -/
def calculate_compatibility (fuel : Nat) (env : Env) (pname : String)
    (userPlatform : String) (genres : List String) (prefs : Prefs) : ℚ × Env :=
  let r1 := getSV fuel env pname "требуемая_платформа"
  let r2 := getSV fuel r1.2 pname "требуемый_жанр"
  let r3 := getSV fuel r2.2 pname "требует_онлайн"
  let r4 := getSV fuel r3.2 pname "рекомендуемая_длина_сессии"
  let hasOnline := pget prefs "имеет_онлайн" == some "да"
  let prefersShort := pget prefs "короткие_сессии" == some "да"
  (compatibilityScore r1.1 r2.1 r3.1 r4.1 userPlatform genres hasOnline prefersShort,
   r4.2)

/-- `frame.set_slot_value(...)` as a heap operation.  Every engine write
targets a slot that is absent on the freshly created proto frame, so the
synthesized-slot path is taken and no `ValueError` can be raised; an
(unreachable) error leaves the heap unchanged. -/
def setSlotE (env : Env) (fname sname : String) (v : Option Value) : Env :=
  match findFrame env fname with
  | some f =>
    match f.set_slot_value sname v with
    | .ok f1 => updateFrame env f1
    | .error _ => env
  | none => env

/-- `x or 0` used as the compatibility sort/max key, read numerically: the
slot, when present in a reachable state, holds the float stored at line
599; an absent slot (`None`) — and a falsy numeric, which Python's `or`
replaces by `0` — give key 0.  Kinds the engine can never store there are
read as 0. -/
def pyOr0 : Option Value → ℚ
  | some (.float q) => q
  | some (.int n) => (n : ℚ)
  | some (.bool b) => if b then 1 else 0
  | _ => 0

/-- One evaluation of the sort/max key
`lambda f: f.get_slot_value("совместимость") or 0`. -/
def compatKeyE (fuel : Nat) (env : Env) (p : String) : ℚ × Env :=
  let r := getSV fuel env p "совместимость"
  (pyOr0 r.1, r.2)

/-- Stable descending insertion by key: the new element goes after every
element with a greater-or-equal key.  A stable sort descending by a
rational key has a unique result, so this coincides with Python's
`list.sort(key=..., reverse=True)`. -/
def insertDesc (x : String × ℚ) : List (String × ℚ) → List (String × ℚ)
  | [] => [x]
  | y :: ys => if y.2 ≥ x.2 then y :: insertDesc x ys else x :: y :: ys

/-- Stable descending sort by key (insertion sort). -/
def stableSortDesc (l : List (String × ℚ)) : List (String × ℚ) :=
  l.foldl (fun acc x => insertDesc x acc) []

/-- `InferenceEngine.frame_based_inference` (lines 548-618), over the heap
`env`, the catalog name list (`KnowledgeBase.get_game_frames` keeps the
declared names present in the heap, in declaration order) and the
processed preference mapping.  Returns (sorted matched proto names,
working-memory proto names in creation order, final heap). -/
def frame_based_inference (fuel : Nat) (env : Env) (gameNames : List String)
    (prefs : Prefs) : List String × List String × Env :=
  let userPlatform := determine_user_platform prefs
  let genres := determine_available_genres prefs
  let games := gameNames.filter (fun n => (findFrame env n).isSome)
  let step := fun (st : List String × List String × Env) (g : String) =>
    let matched := st.1
    let protos := st.2.1
    let pname := "Proto_" ++ g
    let env0 := st.2.2 ++ [Frame.create_proto_frame g]
    let r1 := getSV fuel env0 g "платформа"
    let env1 := if pyTruthyOpt r1.1 then
        setSlotE r1.2 pname "требуемая_платформа" r1.1 else r1.2
    let r2 := getSV fuel env1 g "жанр"
    let env2 := if pyTruthyOpt r2.1 then
        setSlotE r2.2 pname "требуемый_жанр" r2.1 else r2.2
    let r3 := getSV fuel env2 g "требует_онлайн"
    let env3 := if r3.1.isSome then
        setSlotE r3.2 pname "требует_онлайн" r3.1 else r3.2
    let r4 := getSV fuel env3 g "длина_сессии"
    let env4 := if pyTruthyOpt r4.1 then
        setSlotE r4.2 pname "рекомендуемая_длина_сессии" r4.1 else r4.2
    let r5 := getSV fuel env4 g "сложность"
    let env5 := if pyTruthyOpt r5.1 then
        setSlotE r5.2 pname "сложность" r5.1 else r5.2
    let rc := calculate_compatibility fuel env5 pname userPlatform genres prefs
    if rc.1 > 0.3 then
      (matched ++ [pname], protos ++ [pname],
       setSlotE rc.2 pname "совместимость" (some (.float rc.1)))
    else
      (matched, protos ++ [pname], rc.2)
  let res := games.foldl step ([], [], env)
  let keyed := res.1.foldl
    (fun (acc : List (String × ℚ) × Env) p =>
      let r := compatKeyE fuel acc.2 p
      (acc.1 ++ [(p, r.1)], r.2))
    ([], res.2.2)
  ((stableSortDesc keyed.1).map (fun x => x.1), res.2.1, keyed.2)

/-- One iteration of Python `max` over proto names with the
compatibility-or-0 key: keep the current best unless a strictly greater
key appears, threading the heap through the key evaluation. -/
def gbrStep (fuel : Nat) (st : String × ℚ × Env) (y : String) :
    String × ℚ × Env :=
  let r := compatKeyE fuel st.2.2 y
  if r.1 > st.2.1 then (y, r.1, r.2) else (st.1, st.2.1, r.2)

/-- `InferenceEngine.get_best_recommendation` (lines 693-710): `None` on an
empty proto list, else Python `max` (first maximal element wins) with the
compatibility-or-0 key, then the best proto's AKO target's name. -/
def get_best_recommendation (fuel : Nat) (env : Env) (protos : List String) :
    Option String × Env :=
  match protos with
  | [] => (none, env)
  | p :: rest =>
    let k0 := compatKeyE fuel env p
    let best := rest.foldl (gbrStep fuel) (p, k0.1, k0.2)
    match akoNameInEnv best.2.2 best.1 with
    | some g => (some g, best.2.2)
    | none => (none, best.2.2)

/-- One ranked-recommendation record. -/
structure Recommendation where
  game : String
  compatibility : ℚ
  platform : Option Value
  genre : Option Value
  session_length : Option Value

/-- The loop body of `get_all_recommendations` (lines 717-728): for a proto
with a frame-valued AKO backlink emit the record of its game name,
compatibility-or-0, and the three copied requirement slots; otherwise emit
nothing. -/
def garStep (fuel : Nat) (acc : List Recommendation × Env) (pname : String) :
    List Recommendation × Env :=
  let rc := getSV fuel acc.2 pname "совместимость"
  match akoNameInEnv rc.2 pname with
  | some g =>
    let rp := getSV fuel rc.2 pname "требуемая_платформа"
    let rg := getSV fuel rp.2 pname "требуемый_жанр"
    let rl := getSV fuel rg.2 pname "рекомендуемая_длина_сессии"
    (acc.1 ++ [⟨g, pyOr0 rc.1, rp.1, rg.1, rl.1⟩], rl.2)
  | none => (acc.1, rc.2)

/-- `InferenceEngine.get_all_recommendations` (lines 712-730): iterate the
working memory's proto list truncated to `limit` through `garStep`. -/
def get_all_recommendations (fuel : Nat) (env : Env) (protos : List String)
    (limit : Nat) : List Recommendation × Env :=
  (protos.take limit).foldl (garStep fuel) ([], env)

/-- The AKO continuation of one `get_slot_value` step (reading the possibly
just-cached AKO backlink and recursing into the parent); named separately
so the step of `getSlotValueF` can be written as an equation. -/
def akoNext (n : Nat) (env : Env) (f : Frame) (sname : String) :
    Option (Option Value × Env) :=
  match f.akoValue with
  | some (.frameRef p) =>
    match findFrame env p with
    | some _ => getSlotValueF n env p sname
    | none => some (none, env)
  | _ => some (none, env)

/-- The observable AKO structure of the heap: which names resolve and what
their raw AKO backlink is.  Chain walks reading a slot other than AKO
preserve this view even when IF-NEEDED caching mutates the heap. -/
def akoView (env : Env) (g : String) : Option (Option Value) :=
  (findFrame env g).map Frame.akoValue

/-- The parent a chain walk would step to from `fname`: the frame exists,
its AKO backlink is a frame reference, and the referenced frame exists. -/
def parentName (env : Env) (fname : String) : Option String :=
  match akoView env fname with
  | some (some (.frameRef p)) => if (findFrame env p).isSome then some p else none
  | _ => none

/-- The AKO chain from `fname` dies out within `n` steps (so it is finite
and in particular acyclic from this frame on). -/
def chainBoundedB : Nat → Env → String → Bool
  | 0, _, _ => false
  | n + 1, env, fname =>
    match parentName env fname with
    | none => true
    | some p => chainBoundedB n env p

/-- A stored-or-default value respects its slot's declared data type and
permissible-value set whenever it is present. -/
def okVal (s : Slot) (v : Option Value) : Prop :=
  v.isSome = true → (s.validate_type v = true ∧ s.validate_range v = true)

/-- The invariant the validated write path maintains for a slot: its stored
value and its captured default each satisfy the slot's own declared type
and range. -/
def SlotOk (s : Slot) : Prop :=
  okVal s s.value ∧ okVal s s.default_value

/-- Every slot of every frame of the heap satisfies `SlotOk`. -/
def EnvOk (env : Env) : Prop :=
  ∀ f ∈ env, ∀ s ∈ f.slots, SlotOk s

/-- Some slot of the heap named `sname` declares a type and range that the
value `v` satisfies: the shape of the resolving slot of a successful chain
lookup. -/
def ValidFor (env : Env) (sname : String) (v : Value) : Prop :=
  ∃ f ∈ env, ∃ s ∈ f.slots,
    s.name = sname ∧ s.validate_type (some v) = true ∧ s.validate_range (some v) = true

/-- No slot named `sname` anywhere in the heap carries an IF-NEEDED
trigger, so reading `sname` can never mutate the heap. -/
def NTF (env : Env) (sname : String) : Prop :=
  ∀ f ∈ env, ∀ s ∈ f.slots, s.name = sname → s.if_needed.isNone = true

/-- `x` is the first maximal element of `l` under `key`: Python max
semantics, and the tie-breaking rule of a stable descending sort. -/
def isFirstMax (key : String → ℚ) (l : List String) (x : String) : Prop :=
  ∃ pre post, l = pre ++ x :: post ∧
    (∀ y ∈ pre, key y < key x) ∧ (∀ y ∈ l, key y ≤ key x)

/-- Python `max(l0, key=key)` over the nonempty list `x :: l`: keep the
current best unless a strictly greater key appears. -/
def pyMaxBy (key : String → ℚ) (x : String) (l : List String) : String :=
  l.foldl (fun b y => if key y > key b then y else b) x

/-- The sort/max key as a pure function of a fixed heap: meaningful when
key evaluation does not mutate the heap (no IF-NEEDED trigger on any
compatibility slot). -/
def staticKey (fuel : Nat) (env : Env) (q : String) : ℚ :=
  pyOr0 (getSV fuel env q "совместимость").1

/-- The slot-`sname` lookup on `fname` exhausts every fuel bound: the
unbounded source recursion does not terminate there. -/
def getDiverges (env : Env) (fname sname : String) : Prop :=
  ∀ n, getSlotValueF n env fname sname = none

/-- The `is_a` walk from `fname` exhausts every fuel bound: the unbounded
source loop does not terminate there. -/
def isaDiverges (env : Env) (fname ftype : String) : Prop :=
  ∀ n, isAF n env fname ftype = none

instance (s : Slot) (v : Option Value) : Decidable (okVal s v) := by
  unfold okVal
  infer_instance

instance (s : Slot) : Decidable (SlotOk s) := by
  unfold SlotOk
  infer_instance

instance (env : Env) : Decidable (EnvOk env) := by
  unfold EnvOk
  infer_instance

instance (env : Env) (sname : String) (v : Value) : Decidable (ValidFor env sname v) := by
  unfold ValidFor
  infer_instance

instance (env : Env) (sname : String) : Decidable (NTF env sname) := by
  unfold NTF
  infer_instance

/-- A plain text slot holding a value (overridable, unconstrained,
triggerless), as the loader creates them. -/
def mkTextSlot (n : String) (v : Value) : Slot :=
  Slot.init n (some v) .TEXT .O [] none

/-- Concrete catalog frame: a game demanding the Xbox platform. -/
def cexG1 : Frame := ⟨"G1", [akoSlot, mkTextSlot "платформа" (.str "Xbox")]⟩

/-- Concrete catalog frame: a multiplatform game. -/
def cexG2 : Frame := ⟨"G2", [akoSlot, mkTextSlot "платформа" (.str "мультиплатформа")]⟩

/-- Concrete two-game knowledge base: with an all-no preference set, G1
scores 0 (not a match) and G2 scores 1 (a match). -/
def cexEnv : Env := [cexG1, cexG2]

/-- The all-no processed preference mapping. -/
def cexPrefs : Prefs := process_preferences []

/-- The inference run over the concrete two-game catalog. -/
def cexRun : List String × List String × Env :=
  frame_based_inference 10 cexEnv ["G1", "G2"] cexPrefs

/-- A single-game run in which nothing qualifies as a match. -/
def wRun : List String × List String × Env :=
  frame_based_inference 10 [cexG1] ["G1"] cexPrefs

/-- A two-frame heap whose AKO links form a cycle: A is a kind of B and B a
kind of A.  The loader does not prevent such data. -/
def cycEnv : Env :=
  [(Frame.init "A").set_ako (.frameRef "B"),
   (Frame.init "B").set_ako (.frameRef "A")]

/-- An acyclic chain C → B2 → A2 for exercising bounded walks; the root
declares a genre. -/
def chainEnv : Env :=
  [⟨"A2", [akoSlot, mkTextSlot "жанр" (.str "экшен")]⟩,
   (Frame.init "B2").set_ako (.frameRef "A2"),
   (Frame.init "C").set_ako (.frameRef "B2")]

/-- A slot whose construction-time value violates its own declared type:
the loader performs no validation, so such slots are reachable from a
knowledge file. -/
def c2badSlot : Slot :=
  Slot.init "год_выпуска" (some (.str "давно")) .INTEGER .O [] none

/-- A heap containing the ill-typed slot. -/
def c2badEnv : Env := [⟨"Ф", [akoSlot, c2badSlot]⟩]

/-- An IF-NEEDED trigger computing a value of the wrong type for its
INTEGER slot. -/
def c3trig : IfNeededProc := fun _ => some (.str "плохое")

/-- An empty INTEGER slot whose IF-NEEDED trigger computes a TEXT value:
the computed value fails validation and is never cached. -/
def c3slot : Slot := Slot.init "оценка" none .INTEGER .O [] (some c3trig)

/-- An IF-NEEDED trigger computing a well-typed value. -/
def c3goodTrig : IfNeededProc := fun _ => some (.int 5)

/-- An empty INTEGER slot whose IF-NEEDED trigger computes a valid value:
the first read caches it. -/
def c3goodSlot : Slot := Slot.init "оценка" none .INTEGER .O [] (some c3goodTrig)

/-- An INTEGER slot holding a number, target of an ill-typed write. -/
def c8slot : Slot := Slot.init "возраст" (some (.int 10)) .INTEGER .O [] none

/-- A TEXT slot with a three-value permissible range, target of an
out-of-range write. -/
def c8rangeSlot : Slot :=
  Slot.init "бюджет" none .TEXT .O
    [.str "низкий", .str "средний", .str "высокий"] none

/-- A frame declaring both write-target slots. -/
def c8frame : Frame := ⟨"Пользователь", [akoSlot, c8slot, c8rangeSlot]⟩

/-- `set_slot_value` as the callers observe it when the raised error is
caught or propagates: the frame object itself is left as it was (the
validation raises before any assignment). -/
def applySetSlot (f : Frame) (sname : String) (v : Option Value) : Frame :=
  match f.set_slot_value sname v with
  | .ok f1 => f1
  | .error _ => f

/-- Each criterion earns a nonnegative score never exceeding its opened
weight (platform). -/
theorem platformScore_bounds (rp : Option Value) (up : String) :
    0 ≤ (platformScore rp up).1 ∧ (platformScore rp up).1 ≤ (platformScore rp up).2
    ∧ 0 ≤ (platformScore rp up).2 := by
  unfold platformScore
  split_ifs <;> norm_num

/-- Each criterion earns a nonnegative score never exceeding its opened
weight (genre). -/
theorem genreScore_bounds (rg : Option Value) (genres : List String) :
    0 ≤ (genreScore rg genres).1 ∧ (genreScore rg genres).1 ≤ (genreScore rg genres).2
    ∧ 0 ≤ (genreScore rg genres).2 := by
  unfold genreScore
  split_ifs <;> norm_num

/-- Each criterion earns a nonnegative score never exceeding its opened
weight (online). -/
theorem onlineScore_bounds (ro : Option Value) (ho : Bool) :
    0 ≤ (onlineScore ro ho).1 ∧ (onlineScore ro ho).1 ≤ (onlineScore ro ho).2
    ∧ 0 ≤ (onlineScore ro ho).2 := by
  unfold onlineScore
  cases ro with
  | none => norm_num
  | some v =>
    cases hv : pyTruthy v <;> cases ho <;> simp [hv] <;> norm_num

/-- Each criterion earns a nonnegative score never exceeding its opened
weight (session length). -/
theorem sessionScore_bounds (rl : Option Value) (ps : Bool) :
    0 ≤ (sessionScore rl ps).1 ∧ (sessionScore rl ps).1 ≤ (sessionScore rl ps).2
    ∧ 0 ≤ (sessionScore rl ps).2 := by
  unfold sessionScore
  split_ifs <;> norm_num

/-- The scoring core always lands in the unit interval. -/
theorem compatibilityScore_bounds (rp rg ro rl : Option Value) (up : String)
    (genres : List String) (ho ps : Bool) :
    0 ≤ compatibilityScore rp rg ro rl up genres ho ps
    ∧ compatibilityScore rp rg ro rl up genres ho ps ≤ 1 := by
  have hp := platformScore_bounds rp up
  have hg := genreScore_bounds rg genres
  have hon := onlineScore_bounds ro ho
  have hs := sessionScore_bounds rl ps
  simp only [compatibilityScore]
  split_ifs with h
  · constructor
    · exact div_nonneg (by linarith [hp.1, hg.1, hon.1, hs.1]) (le_of_lt h)
    · rw [div_le_one h]
      linarith [hp.2.1, hg.2.1, hon.2.1, hs.2.1]
  · norm_num

/-- C9: a catalog frame whose required platform is мультиплатформа earns
the full 0.35 platform weight against every user platform, the unknown
platform неизвестно included — exactly the contribution of an
equal-platform match. -/
theorem C9_multiplatform_full_weight (up : String) :
    platformScore (some (.str "мультиплатформа")) up = (0.35, 0.35) := by
  simp [platformScore, pyTruthyOpt, pyTruthy, pyEqStr]

/-- C5 counterexample: the claim awards the 0.10 online half-credit
whenever the game does not require online access, regardless of the user.
At the concrete input requires-online = False and user-online = no, the
code instead awards the full 0.15 as an exact match, and 0.15 is not
0.10. -/
theorem C5_counterexample :
    onlineScore (some (.bool false)) false = (0.15, 0.15) ∧ (0.15 : ℚ) ≠ 0.1 := by
  constructor
  · decide
  · decide

/-- C5 (amended): the partial-credit rules are: platform half-credit 0.15
of 0.35 when the user platform is ПК and the requirement is Playstation or
Xbox; online half-credit 0.10 of 0.15 when the game does not require
online access and the user has it (when the user also lacks it the pairing
is an exact match worth the full 0.15); session-length partial credit 0.05
of 0.15 on every declared non-exact pairing. -/
theorem C5_partial_credit_rules :
    (∀ c : String, (c = "Playstation" ∨ c = "Xbox") →
        platformScore (some (.str c)) "ПК" = (0.15, 0.35))
    ∧ (∀ v : Value, pyTruthy v = false →
        onlineScore (some v) true = (0.1, 0.15)
        ∧ onlineScore (some v) false = (0.15, 0.15))
    ∧ (∀ (v : Value) (ps : Bool), pyTruthy v = true →
        ((pyEqStr (some v) "короткая" && ps)
          || (pyEqStr (some v) "длинная" && !ps)) = false →
        sessionScore (some v) ps = (0.05, 0.15)) := by
  refine ⟨?_, ?_, ?_⟩
  · rintro c (rfl | rfl) <;> decide
  · intro v hv
    constructor <;> simp [onlineScore, hv]
  · intro v ps hv hne
    simp [sessionScore, pyTruthyOpt, hv, hne]

/-- C5 witness: the three partial-credit rules at concrete inputs — an
Xbox-only game for a ПК user, a no-online-required game for an online
user, and a medium-session game for a short-session user. -/
theorem C5_witness :
    platformScore (some (.str "Xbox")) "ПК" = (0.15, 0.35)
    ∧ onlineScore (some (.bool false)) true = (0.1, 0.15)
    ∧ sessionScore (some (.str "средняя")) true = (0.05, 0.15) :=
  ⟨C5_partial_credit_rules.1 "Xbox" (Or.inr rfl),
   (C5_partial_credit_rules.2.1 (.bool false) rfl).1,
   C5_partial_credit_rules.2.2 (.str "средняя") true rfl rfl⟩

/-- C6: every compatibility score computed over any heap, proto frame and
preference mapping lies within the unit interval, and the scoring core
returns exactly 0 when none of the four weighted requirements is declared
(all four fetched slot values absent or falsy). -/
theorem C6_score_bounds_and_zero :
    (∀ fuel env pname up genres prefs,
        0 ≤ (calculate_compatibility fuel env pname up genres prefs).1
        ∧ (calculate_compatibility fuel env pname up genres prefs).1 ≤ 1)
    ∧ (∀ (rp rg ro rl : Option Value) (up : String) (genres : List String)
        (ho ps : Bool),
        pyTruthyOpt rp = false → pyTruthyOpt rg = false → ro = none →
        pyTruthyOpt rl = false →
        compatibilityScore rp rg ro rl up genres ho ps = 0) := by
  constructor
  · intro fuel env pname up genres prefs
    simp only [calculate_compatibility]
    exact compatibilityScore_bounds _ _ _ _ _ _ _ _
  · intro rp rg ro rl up genres ho ps h1 h2 h3 h4
    subst h3
    simp [compatibilityScore, platformScore, genreScore, onlineScore,
      sessionScore, h1, h2, h4]

/-- C6 witness: the bounds at a concrete heap and the exact zero at the
all-absent input. -/
theorem C6_witness :
    (0 ≤ (calculate_compatibility 10 cexEnv "G1" "ПК" [] cexPrefs).1
     ∧ (calculate_compatibility 10 cexEnv "G1" "ПК" [] cexPrefs).1 ≤ 1)
    ∧ compatibilityScore none none none none "ПК" [] false false = 0 :=
  ⟨C6_score_bounds_and_zero.1 10 cexEnv "G1" "ПК" [] cexPrefs,
   C6_score_bounds_and_zero.2 none none none none "ПК" [] false false
     rfl rfl rfl rfl⟩

/-- C7: the determined user platform prioritizes ПК over Playstation over
Xbox and is неизвестно when none is owned; the available genre set holds
стратегия exactly when the strategies flag or the simulators flag is да
(one shared label), and holds приключение exactly when both the adventures
flag and online access are да. -/
theorem C7_platform_and_genres (prefs : Prefs) :
    (pget prefs "имеет_ПК" = some "да" → determine_user_platform prefs = "ПК")
    ∧ (pget prefs "имеет_ПК" ≠ some "да" →
        pget prefs "имеет_Playstation" = some "да" →
        determine_user_platform prefs = "Playstation")
    ∧ (pget prefs "имеет_ПК" ≠ some "да" →
        pget prefs "имеет_Playstation" ≠ some "да" →
        pget prefs "имеет_Xbox" = some "да" →
        determine_user_platform prefs = "Xbox")
    ∧ (pget prefs "имеет_ПК" ≠ some "да" →
        pget prefs "имеет_Playstation" ≠ some "да" →
        pget prefs "имеет_Xbox" ≠ some "да" →
        determine_user_platform prefs = "неизвестно")
    ∧ ("стратегия" ∈ determine_available_genres prefs ↔
        (pget prefs "нравятся_стратегии" = some "да"
          ∨ pget prefs "нравятся_симуляторы" = some "да"))
    ∧ ("приключение" ∈ determine_available_genres prefs ↔
        (pget prefs "нравятся_приключения" = some "да"
          ∧ pget prefs "имеет_онлайн" = some "да")) := by
  refine ⟨?_, ?_, ?_, ?_, ?_, ?_⟩
  · intro h1
    simp [determine_user_platform, h1]
  · intro h1 h2
    simp [determine_user_platform, beq_iff_eq, h1, h2]
  · intro h1 h2 h3
    simp [determine_user_platform, beq_iff_eq, h1, h2, h3]
  · intro h1 h2 h3
    simp [determine_user_platform, beq_iff_eq, h1, h2, h3]
  · unfold determine_available_genres
    split_ifs <;> simp_all [beq_iff_eq]
  · unfold determine_available_genres
    split_ifs <;> simp_all [beq_iff_eq]

/-- C3 counterexample: the claim has every IF-NEEDED computation cached
into the slot before the trigger returns control, with a second read never
re-firing the trigger.  For the concrete empty INTEGER slot whose trigger
computes a TEXT value, the trigger does return a value, yet the read
returns the absence indicator and leaves the slot empty with the trigger
still registered — nothing was cached, and a second read (the same
`get_value` call on the unchanged slot) invokes the trigger again. -/
theorem C3_counterexample :
    (c3trig "Ф").isSome = true
    ∧ c3slot.get_value "Ф" = (none, c3slot)
    ∧ c3slot.value = none
    ∧ c3slot.if_needed.isSome = true :=
  ⟨rfl, rfl, rfl, rfl⟩

/-- C3 (amended): when the empty slot's IF-NEEDED trigger computes a value
that passes the slot's type and range validation, the value is cached into
the slot as the read returns (after the trigger has returned, not before),
and a second read returns the cached value without consulting the trigger
at all — the result of the second read is the same whatever trigger (or
none) is then registered, and the slot is not mutated again.  A computed
value that fails validation is not cached and the trigger fires again on
the next read (see the counterexample). -/
theorem C3_cache_on_valid (s : Slot) (ctx : String) (tr : IfNeededProc)
    (v : Value) (h1 : s.value = none) (h2 : s.default_value = none)
    (h3 : s.if_needed = some tr) (h4 : tr ctx = some v)
    (h5 : s.validate_type (some v) = true) (h6 : s.validate_range (some v) = true) :
    s.get_value ctx = (some v, { s with value := some v })
    ∧ ∀ tr2 : Option IfNeededProc,
        ({ s with value := some v, if_needed := tr2 }).get_value ctx
          = (some v, { s with value := some v, if_needed := tr2 }) := by
  constructor
  · unfold Slot.get_value
    simp [h1, h2, h3, h4, h5, h6]
  · intro tr2
    unfold Slot.get_value
    simp

/-- C3 witness: the valid-trigger slot caches its computed 5 on first read,
and the second read returns the cached 5 even with the trigger
deregistered. -/
theorem C3_witness :
    c3goodSlot.get_value "Ф"
      = (some (.int 5), { c3goodSlot with value := some (.int 5) })
    ∧ ({ c3goodSlot with value := some (.int 5), if_needed := none }).get_value "Ф"
      = (some (.int 5), { c3goodSlot with value := some (.int 5), if_needed := none }) :=
  ⟨(C3_cache_on_valid c3goodSlot "Ф" c3goodTrig (.int 5) rfl rfl rfl rfl rfl rfl).1,
   (C3_cache_on_valid c3goodSlot "Ф" c3goodTrig (.int 5) rfl rfl rfl rfl rfl rfl).2 none⟩

/-- C8 counterexample: the claim has every rejected write carry a typed
error naming both the slot and the offending value.  Writing the TEXT
value десять into the INTEGER slot возраст is rejected, but the raised
message interpolates only the type name str of the offending value, the
slot name and the expected type — no value at all (`mentionedValues` is
empty), so the error does not name the offending value. -/
theorem C8_counterexample :
    c8slot.set_value (some (.str "десять"))
      = .error (.typeError "str" "возраст" "INTEGER")
    ∧ (SetError.typeError "str" "возраст" "INTEGER").mentionedValues = [] :=
  ⟨rfl, rfl⟩

/-- C8 (amended): an assignment to an existing slot whose value fails the
declared type or permissible range is rejected with a typed `ValueError`
naming the slot; a range failure also interpolates the offending value,
while a type failure interpolates the type name of the offending value in
its place; in both cases the raise happens before any assignment, so the
frame observed by the caller is unchanged (no partial write). -/
theorem C8_invalid_write_rejected (f : Frame) (sname : String) (s : Slot)
    (v : Option Value) (hs : f.get_slot sname = some s)
    (hbad : ¬ (s.validate_type v = true ∧ s.validate_range v = true)) :
    (∃ e : SetError,
      f.set_slot_value sname v = .error e
      ∧ e.slotNameOf = s.name
      ∧ (s.validate_type v = false →
          e = .typeError (pyTypeName v) s.name s.data_type.pyValue)
      ∧ (s.validate_type v = true → s.validate_range v = false →
          e = .rangeError v s.range_values s.name ∧ e.mentionedValues = [v]))
    ∧ applySetSlot f sname v = f := by
  cases hvt : s.validate_type v with
  | false =>
    refine ⟨⟨.typeError (pyTypeName v) s.name s.data_type.pyValue, ?_, rfl,
      fun _ => rfl, fun h _ => Bool.noConfusion h⟩, ?_⟩
    · simp [Frame.set_slot_value, Slot.set_value, hs, hvt]
    · simp [applySetSlot, Frame.set_slot_value, Slot.set_value, hs, hvt]
  | true =>
    have hvr : s.validate_range v = false := by
      cases hr : s.validate_range v
      · rfl
      · exact absurd ⟨hvt, hr⟩ hbad
    refine ⟨⟨.rangeError v s.range_values s.name, ?_, rfl,
      fun h => Bool.noConfusion h, fun _ _ => ⟨rfl, rfl⟩⟩, ?_⟩
    · simp [Frame.set_slot_value, Slot.set_value, hs, hvt, hvr]
    · simp [applySetSlot, Frame.set_slot_value, Slot.set_value, hs, hvt, hvr]

/-- C8 witness: the out-of-range write огромный into the constrained slot
бюджет is rejected with an error naming the slot, and the frame is
unchanged. -/
theorem C8_witness :
    ∃ e : SetError,
      c8frame.set_slot_value "бюджет" (some (.str "огромный")) = .error e
      ∧ e.slotNameOf = "бюджет"
      ∧ applySetSlot c8frame "бюджет" (some (.str "огромный")) = c8frame := by
  obtain ⟨⟨e, h1, h2, _, _⟩, h5⟩ :=
    C8_invalid_write_rejected c8frame "бюджет" c8rangeSlot
      (some (.str "огромный")) rfl (by decide)
  exact ⟨e, h1, h2, h5⟩

/-- C7 witness: platform priority and genre labels at concrete preference
mappings. -/
theorem C7_witness :
    determine_user_platform [("имеет_ПК", "да")] = "ПК"
    ∧ determine_user_platform [("имеет_Playstation", "да")] = "Playstation"
    ∧ determine_user_platform [("имеет_Xbox", "да")] = "Xbox"
    ∧ determine_user_platform [] = "неизвестно"
    ∧ "стратегия" ∈ determine_available_genres [("нравятся_симуляторы", "да")]
    ∧ "приключение" ∉ determine_available_genres [("нравятся_приключения", "да")] :=
  ⟨(C7_platform_and_genres _).1 rfl,
   (C7_platform_and_genres _).2.1 (by decide) rfl,
   (C7_platform_and_genres _).2.2.1 (by decide) (by decide) rfl,
   (C7_platform_and_genres _).2.2.2.1 (by decide) (by decide) (by decide),
   ((C7_platform_and_genres _).2.2.2.2.1).mpr (Or.inr rfl),
   fun h => Option.noConfusion (((C7_platform_and_genres _).2.2.2.2.2).mp h).2⟩

/-- A found frame bears the looked-up name. -/
theorem findFrame_name {env : Env} {n : String} {f : Frame}
    (h : findFrame env n = some f) : f.name = n := by
  induction env with
  | nil => exact Option.noConfusion h
  | cons g gs ih =>
    unfold findFrame at h
    by_cases hg : (g.name == n) = true
    · rw [if_pos hg] at h
      cases h
      exact beq_iff_eq.mp hg
    · rw [if_neg hg] at h
      exact ih h

/-- A found frame is a member of the heap. -/
theorem findFrame_mem {env : Env} {n : String} {f : Frame}
    (h : findFrame env n = some f) : f ∈ env := by
  induction env with
  | nil => exact Option.noConfusion h
  | cons g gs ih =>
    unfold findFrame at h
    by_cases hg : (g.name == n) = true
    · rw [if_pos hg] at h
      cases h
      exact List.mem_cons_self _ _
    · rw [if_neg hg] at h
      exact List.mem_cons_of_mem _ (ih h)

/-- Writing back the very frame that lookup returns leaves the heap
unchanged (the model of an in-place mutation that changed nothing). -/
theorem updateFrame_found {env : Env} {f : Frame}
    (h : findFrame env f.name = some f) : updateFrame env f = env := by
  induction env with
  | nil => rfl
  | cons g gs ih =>
    unfold findFrame at h
    unfold updateFrame
    by_cases hg : (g.name == f.name) = true
    · rw [if_pos hg] at h
      cases h
      rw [if_pos hg]
    · rw [if_neg hg] at h
      rw [if_neg hg, ih h]

/-- Every member of the written-back heap is the new frame or an old
member. -/
theorem updateFrame_mem {env : Env} {f g : Frame}
    (h : g ∈ updateFrame env f) : g = f ∨ g ∈ env := by
  induction env with
  | nil => exact Or.inr h
  | cons e es ih =>
    unfold updateFrame at h
    by_cases he : (e.name == f.name) = true
    · rw [if_pos he] at h
      rcases List.mem_cons.mp h with h1 | h1
      · exact Or.inl h1
      · exact Or.inr (List.mem_cons_of_mem _ h1)
    · rw [if_neg he] at h
      rcases List.mem_cons.mp h with h1 | h1
      · exact Or.inr (h1 ▸ List.mem_cons_self _ _)
      · rcases ih h1 with h2 | h2
        · exact Or.inl h2
        · exact Or.inr (List.mem_cons_of_mem _ h2)

/-- When some frame of the heap bears the new frame's name, the new frame
is a member of the written-back heap. -/
theorem mem_updateFrame_self {env : Env} {f : Frame}
    (h : (findFrame env f.name).isSome = true) : f ∈ updateFrame env f := by
  induction env with
  | nil => simp [findFrame] at h
  | cons e es ih =>
    unfold findFrame at h
    unfold updateFrame
    by_cases he : (e.name == f.name) = true
    · rw [if_pos he]
      exact List.mem_cons_self _ _
    · rw [if_neg he] at h
      rw [if_neg he]
      exact List.mem_cons_of_mem _ (ih h)

/-- Every slot of a dict-updated slot list is the new slot or an old
one. -/
theorem slotsUpdate_mem {l : List Slot} {s t : Slot}
    (h : t ∈ slotsUpdate l s) : t = s ∨ t ∈ l := by
  induction l with
  | nil =>
    rcases List.mem_singleton.mp h with h1
    exact Or.inl h1
  | cons e es ih =>
    unfold slotsUpdate at h
    by_cases he : (e.name == s.name) = true
    · rw [if_pos he] at h
      rcases List.mem_cons.mp h with h1 | h1
      · exact Or.inl h1
      · exact Or.inr (List.mem_cons_of_mem _ h1)
    · rw [if_neg he] at h
      rcases List.mem_cons.mp h with h1 | h1
      · exact Or.inr (h1 ▸ List.mem_cons_self _ _)
      · rcases ih h1 with h2 | h2
        · exact Or.inl h2
        · exact Or.inr (List.mem_cons_of_mem _ h2)

/-- The dict-updated slot list contains the new slot. -/
theorem mem_slotsUpdate_self (l : List Slot) (s : Slot) :
    s ∈ slotsUpdate l s := by
  induction l with
  | nil => exact List.mem_singleton.mpr rfl
  | cons e es ih =>
    unfold slotsUpdate
    by_cases he : (e.name == s.name) = true
    · rw [if_pos he]
      exact List.mem_cons_self _ _
    · rw [if_neg he]
      exact List.mem_cons_of_mem _ ih

/-- Replacing a found slot by itself leaves the slot list unchanged. -/
theorem slotsUpdate_found {l : List Slot} {sname : String} {s : Slot}
    (h : l.find? (fun t => t.name == sname) = some s) : slotsUpdate l s = l := by
  induction l with
  | nil => exact Option.noConfusion h
  | cons e es ih =>
    unfold slotsUpdate
    by_cases he : (e.name == sname) = true
    · have h2 : e = s := by
        have h3 := h
        simp only [List.find?_cons, he] at h3
        exact Option.some.inj h3
      subst h2
      rw [if_pos LawfulBEq.rfl]
    · have hfe : (e.name == sname) = false := by
        cases hx : (e.name == sname)
        · rfl
        · exact absurd hx he
      have h2 : es.find? (fun t => t.name == sname) = some s := by
        have h3 := h
        simp only [List.find?_cons, hfe] at h3
        exact h3
      have hps := List.find?_some h2
      have hs : s.name = sname := beq_iff_eq.mp hps
      have hne : (e.name == s.name) = false := by rw [hs]; exact hfe
      rw [hne]
      simp only [Bool.false_eq_true, if_false]
      rw [ih h2]

/-- `get_value` never changes the name, declared type, permissible range
or default of its slot. -/
theorem get_value_fields (s : Slot) (ctx : String) :
    (s.get_value ctx).2.name = s.name
    ∧ (s.get_value ctx).2.data_type = s.data_type
    ∧ (s.get_value ctx).2.range_values = s.range_values := by
  unfold Slot.get_value
  split_ifs with h1 h2
  · exact ⟨rfl, rfl, rfl⟩
  · cases s.if_needed with
    | none => exact ⟨rfl, rfl, rfl⟩
    | some proc =>
      dsimp only
      by_cases h3 : (s.validate_type (proc ctx) = true ∧ s.validate_range (proc ctx) = true)
      · rw [if_pos h3]
        exact ⟨rfl, rfl, rfl⟩
      · rw [if_neg h3]
        exact ⟨rfl, rfl, rfl⟩
  · exact ⟨rfl, rfl, rfl⟩

/-- Two slots sharing a declared data type validate the same values. -/
theorem validate_type_congr {s1 s : Slot} (h : s1.data_type = s.data_type)
    (x : Option Value) : s1.validate_type x = s.validate_type x := by
  unfold Slot.validate_type
  rw [h]

/-- Two slots sharing a permissible range validate the same values. -/
theorem validate_range_congr {s1 s : Slot} (h : s1.range_values = s.range_values)
    (x : Option Value) : s1.validate_range x = s.validate_range x := by
  unfold Slot.validate_range
  rw [h]

/-- A well-formed slot only ever hands out values that satisfy its own
declared type and range, and stays well-formed across the read (the
IF-NEEDED path validates before caching). -/
theorem get_value_valid (s : Slot) (ctx : String) (h : SlotOk s) :
    (∀ v, (s.get_value ctx).1 = some v →
        s.validate_type (some v) = true ∧ s.validate_range (some v) = true)
    ∧ SlotOk (s.get_value ctx).2 := by
  obtain ⟨hv, hd⟩ := h
  unfold Slot.get_value
  split_ifs with h1 h2
  · refine ⟨?_, hv, hd⟩
    intro v hveq
    have he : s.default_value = some v := hveq
    rw [he] at hd
    exact hd rfl
  · cases s.if_needed with
    | none => exact ⟨fun v hveq => Option.noConfusion hveq, hv, hd⟩
    | some proc =>
      dsimp only
      by_cases h3 : (s.validate_type (proc ctx) = true ∧ s.validate_range (proc ctx) = true)
      · rw [if_pos h3]
        obtain ⟨h3a, h3b⟩ := h3
        constructor
        · intro v hveq
          have he : proc ctx = some v := hveq
          rw [he] at h3a h3b
          exact ⟨h3a, h3b⟩
        · exact ⟨fun _ => ⟨h3a, h3b⟩, hd⟩
      · rw [if_neg h3]
        exact ⟨fun v hveq => Option.noConfusion hveq, hv, hd⟩
  · refine ⟨?_, hv, hd⟩
    intro v hveq
    have he : s.value = some v := hveq
    rw [he] at hv
    exact hv rfl

/-- The recursion step of `getSlotValueF`, with the AKO continuation
written through `akoNext`. -/
theorem getSlotValueF_succ (n : Nat) (env : Env) (fname sname : String) :
    getSlotValueF (n + 1) env fname sname =
      match findFrame env fname with
      | none => some (none, env)
      | some f =>
        match f.get_slot sname with
        | some slot =>
          match slot.get_value fname with
          | (some v, slot1) => some (some v, updateFrame env (f.add_slot slot1))
          | (none, slot1) =>
              akoNext n (updateFrame env (f.add_slot slot1)) (f.add_slot slot1) sname
        | none => akoNext n env f sname := by
  cases h1 : findFrame env fname with
  | none => simp [getSlotValueF, h1]
  | some f =>
    cases h2 : f.get_slot sname with
    | none => simp [getSlotValueF, akoNext, h1, h2]
    | some slot =>
      cases h3 : slot.get_value fname with
      | mk r slot1 =>
        cases r with
        | none => simp [getSlotValueF, akoNext, h1, h2, h3]
        | some v => simp [getSlotValueF, h1, h2, h3]

/-- Step of the chain walk: the frame name does not resolve. -/
theorem gsv_step_nofr {env : Env} {fname : String} (n : Nat) (sname : String)
    (h1 : findFrame env fname = none) :
    getSlotValueF (n + 1) env fname sname = some (none, env) := by
  simp [getSlotValueF, h1]

/-- Step of the chain walk: the frame does not declare the slot. -/
theorem gsv_step_noslot {env : Env} {fname : String} (n : Nat) (f : Frame)
    {sname : String} (h1 : findFrame env fname = some f)
    (h2 : f.get_slot sname = none) :
    getSlotValueF (n + 1) env fname sname = akoNext n env f sname := by
  simp [getSlotValueF, akoNext, h1, h2]

/-- Step of the chain walk: the declared slot resolves to a value. -/
theorem gsv_step_val {env : Env} {fname : String} {f : Frame} {slot slot1 : Slot}
    {v : Value} (n : Nat) {sname : String} (h1 : findFrame env fname = some f)
    (h2 : f.get_slot sname = some slot)
    (h3 : slot.get_value fname = (some v, slot1)) :
    getSlotValueF (n + 1) env fname sname
      = some (some v, updateFrame env (f.add_slot slot1)) := by
  simp [getSlotValueF, h1, h2, h3]

/-- Step of the chain walk: the declared slot stays empty, the walk moves
to the AKO parent over the written-back heap. -/
theorem gsv_step_noval {env : Env} {fname : String} {f : Frame}
    {slot slot1 : Slot} (n : Nat) {sname : String}
    (h1 : findFrame env fname = some f) (h2 : f.get_slot sname = some slot)
    (h3 : slot.get_value fname = (none, slot1)) :
    getSlotValueF (n + 1) env fname sname
      = akoNext n (updateFrame env (f.add_slot slot1)) (f.add_slot slot1) sname := by
  simp [getSlotValueF, akoNext, h1, h2, h3]

/-- The AKO continuation recurses into the referenced, resolvable
parent. -/
theorem akoNext_rec {env : Env} {f : Frame} {p : String}
    (n : Nat) (sname : String) (pf : Frame)
    (h4 : f.akoValue = some (.frameRef p))
    (h5 : findFrame env p = some pf) :
    akoNext n env f sname = getSlotValueF n env p sname := by
  simp [akoNext, h4, h5]

/-- The AKO continuation either recurses into some parent frame or stops
with the absence indicator and an unchanged heap. -/
theorem akoNext_cases {n : Nat} {env : Env} {f : Frame} {sname : String}
    {r : Option Value} {env2 : Env}
    (h : akoNext n env f sname = some (r, env2)) :
    (∃ p, getSlotValueF n env p sname = some (r, env2))
    ∨ (r = none ∧ env2 = env) := by
  unfold akoNext at h
  cases h4 : f.akoValue with
  | none =>
    rw [h4] at h
    have h6 : some ((none : Option Value), env) = some (r, env2) := h
    injection h6 with h6
    injection h6 with ha hb
    exact Or.inr ⟨ha.symm, hb.symm⟩
  | some val =>
    cases val
    case frameRef p =>
      rw [h4] at h
      have h6 : (match findFrame env p with
        | some _ => getSlotValueF n env p sname
        | none => some (none, env)) = some (r, env2) := h
      cases h5 : findFrame env p with
      | some pf =>
        rw [h5] at h6
        have h7 : getSlotValueF n env p sname = some (r, env2) := h6
        exact Or.inl ⟨p, h7⟩
      | none =>
        rw [h5] at h6
        have h7 : some ((none : Option Value), env) = some (r, env2) := h6
        injection h7 with h7
        injection h7 with ha hb
        exact Or.inr ⟨ha.symm, hb.symm⟩
    all_goals
      rw [h4] at h
      first
      | (exact Or.inr (by
          have h6 : some ((none : Option Value), env) = some (r, env2) := h
          injection h6 with h6
          injection h6 with ha hb
          exact ⟨ha.symm, hb.symm⟩))

/-- The heap stays well-formed when a frame found in it gets one
well-formed slot written (the model of every in-place slot mutation). -/
theorem envok_update {env : Env} {fname : String} {f : Frame} {s1 : Slot}
    (henv : EnvOk env) (h1 : findFrame env fname = some f) (hs1 : SlotOk s1) :
    EnvOk (updateFrame env (f.add_slot s1)) := by
  intro g hg t ht
  rcases updateFrame_mem hg with rfl | hgmem
  · rcases slotsUpdate_mem ht with rfl | htmem
    · exact hs1
    · exact henv f (findFrame_mem h1) t htmem
  · exact henv g hgmem t ht

/-- C2 (amended): over a heap in which every slot is well-formed — its
stored value and captured default satisfy its own declared type and range,
the invariant the validated write path maintains but the loader does not
establish — every terminating `get_slot_value` walk returns either the
absence indicator or a value that some slot of the declared name
validates, and it leaves the heap well-formed. -/
theorem C2_valid_or_absent (n : Nat) (env : Env) (fname sname : String)
    (r : Option Value) (env2 : Env) (henv : EnvOk env)
    (hrun : getSlotValueF n env fname sname = some (r, env2)) :
    EnvOk env2 ∧ ∀ v, r = some v → ValidFor env2 sname v := by
  induction n generalizing env fname r env2 with
  | zero => exact Option.noConfusion hrun
  | succ n ih =>
    cases h1 : findFrame env fname with
    | none =>
      rw [gsv_step_nofr n sname h1] at hrun
      injection hrun with hrun
      injection hrun with ha hb
      subst hb
      exact ⟨henv, fun v hv => Option.noConfusion (ha ▸ hv)⟩
    | some f =>
      cases h2 : f.get_slot sname with
      | none =>
        rw [gsv_step_noslot n f h1 h2] at hrun
        rcases akoNext_cases hrun with ⟨p, hp⟩ | ⟨rfl, rfl⟩
        · exact ih env p r env2 henv hp
        · exact ⟨henv, fun v hv => Option.noConfusion hv⟩
      | some slot =>
        have hsmem : slot ∈ f.slots := List.mem_of_find?_eq_some h2
        have hps := List.find?_some h2
        have hsname : slot.name = sname := beq_iff_eq.mp hps
        have hsok : SlotOk slot := henv f (findFrame_mem h1) slot hsmem
        obtain ⟨hval, hok2⟩ := get_value_valid slot fname hsok
        have hflds := get_value_fields slot fname
        cases h3 : slot.get_value fname with
        | mk rv slot1 =>
          rw [h3] at hval hok2 hflds
          have hok1 : SlotOk slot1 := hok2
          have hname1 : slot1.name = sname := hflds.1.trans hsname
          cases rv with
          | some v =>
            rw [gsv_step_val n h1 h2 h3] at hrun
            injection hrun with hrun
            injection hrun with ha hb
            subst hb
            have henv2 : EnvOk (updateFrame env (f.add_slot slot1)) :=
              envok_update henv h1 hok1
            refine ⟨henv2, fun v2 hv2 => ?_⟩
            have hv : v = v2 := Option.some.inj (ha.trans hv2)
            subst hv
            refine ⟨f.add_slot slot1, ?_, slot1, mem_slotsUpdate_self _ _,
              hname1, ?_, ?_⟩
            · have hn0 := findFrame_name h1
              have hn : (f.add_slot slot1).name = fname := hn0
              exact mem_updateFrame_self (by rw [hn, h1]; rfl)
            · rw [validate_type_congr hflds.2.1]
              exact (hval v rfl).1
            · rw [validate_range_congr hflds.2.2]
              exact (hval v rfl).2
          | none =>
            rw [gsv_step_noval n h1 h2 h3] at hrun
            have henv2 : EnvOk (updateFrame env (f.add_slot slot1)) :=
              envok_update henv h1 hok1
            rcases akoNext_cases hrun with ⟨p, hp⟩ | ⟨rfl, rfl⟩
            · exact ih _ p r env2 henv2 hp
            · exact ⟨henv2, fun v hv => Option.noConfusion hv⟩

/-- A dict update under a different key does not disturb lookups of the
other key. -/
theorem slotsUpdate_find?_other {l : List Slot} {s1 : Slot} {other : String}
    (hne : (s1.name == other) = false) :
    (slotsUpdate l s1).find? (fun t => t.name == other)
      = l.find? (fun t => t.name == other) := by
  induction l with
  | nil =>
    simp [slotsUpdate, List.find?, hne]
  | cons e es ih =>
    unfold slotsUpdate
    by_cases he : (e.name == s1.name) = true
    · have hee : e.name = s1.name := beq_iff_eq.mp he
      rw [if_pos he]
      simp only [List.find?_cons, hne, hee]
    · rw [if_neg he]
      simp only [List.find?_cons]
      cases hx : (e.name == other)
      · exact ih
      · rfl

/-- Writing a slot other than AKO leaves the AKO backlink untouched. -/
theorem add_slot_akoValue (f : Frame) {s1 : Slot}
    (hne : (s1.name == "AKO") = false) :
    (f.add_slot s1).akoValue = f.akoValue := by
  unfold Frame.akoValue Frame.get_slot Frame.add_slot
  rw [slotsUpdate_find?_other hne]

/-- Writing back a frame that differs from the found one only in its
non-AKO slots preserves the heap's whole AKO view. -/
theorem akoView_update (f1 : Frame) {env : Env} {fname : String} {f : Frame}
    (hf : findFrame env fname = some f) (hname : f1.name = f.name)
    (hako : f1.akoValue = f.akoValue) :
    ∀ g, akoView (updateFrame env f1) g = akoView env g := by
  induction env with
  | nil => intro g; rfl
  | cons e es ih =>
    intro g
    unfold updateFrame
    by_cases he : (e.name == f1.name) = true
    · have hef : e = f := by
        have hee : e.name = fname := by
          rw [beq_iff_eq.mp he, hname]
          exact findFrame_name hf
        have hx := hf
        unfold findFrame at hx
        rw [if_pos (beq_iff_eq.mpr hee)] at hx
        exact Option.some.inj hx
      rw [if_pos he]
      unfold akoView findFrame
      have hxx : f1.name = e.name := by rw [hname, hef]
      by_cases hg : (e.name == g) = true
      · rw [if_pos hg, if_pos (by rw [hxx]; exact hg)]
        subst hef
        simp [hako]
      · rw [if_neg hg, if_neg (by rw [hxx]; exact hg)]
    · have hee : (e.name == fname) = false := by
        cases hc : (e.name == fname)
        · rfl
        · exfalso
          have hx2 := hf
          unfold findFrame at hx2
          rw [if_pos hc] at hx2
          have hef : e = f := Option.some.inj hx2
          apply he
          rw [hname, ← hef]
          exact LawfulBEq.rfl
      have hx : findFrame es fname = some f := by
        have hx2 := hf
        unfold findFrame at hx2
        rw [if_neg (by rw [hee]; exact Bool.false_ne_true)] at hx2
        exact hx2
      rw [if_neg he]
      unfold akoView findFrame
      by_cases hg : (e.name == g) = true
      · rw [if_pos hg, if_pos hg]
      · rw [if_neg hg, if_neg hg]
        exact ih hx g

/-- Reading any slot other than AKO — whatever IF-NEEDED caching it
performs along the chain — preserves the heap's AKO view. -/
theorem gsv_akoView {n : Nat} {env : Env} {fname sname : String}
    {r : Option Value} {env2 : Env}
    (hrun : getSlotValueF n env fname sname = some (r, env2))
    (hs : sname ≠ "AKO") : ∀ g, akoView env2 g = akoView env g := by
  induction n generalizing env fname r env2 with
  | zero => exact Option.noConfusion hrun
  | succ n ih =>
    cases h1 : findFrame env fname with
    | none =>
      rw [gsv_step_nofr n sname h1] at hrun
      injection hrun with hrun
      injection hrun with _ hb
      subst hb
      intro g
      rfl
    | some f =>
      cases h2 : f.get_slot sname with
      | none =>
        rw [gsv_step_noslot n f h1 h2] at hrun
        rcases akoNext_cases hrun with ⟨p, hp⟩ | ⟨_, rfl⟩
        · exact ih hp
        · intro g
          rfl
      | some slot =>
        have hps := List.find?_some h2
        have hsname : slot.name = sname := beq_iff_eq.mp hps
        have hflds := get_value_fields slot fname
        cases h3 : slot.get_value fname with
        | mk rv slot1 =>
          rw [h3] at hflds
          have hne : (slot1.name == "AKO") = false := by
            cases hc : (slot1.name == "AKO")
            · rfl
            · exfalso
              apply hs
              rw [← hsname, ← hflds.1]
              exact beq_iff_eq.mp hc
          have hako := add_slot_akoValue f hne
          have hview := akoView_update (f.add_slot slot1) h1 rfl hako
          cases rv with
          | some v =>
            rw [gsv_step_val n h1 h2 h3] at hrun
            injection hrun with hrun
            injection hrun with _ hb
            subst hb
            exact hview
          | none =>
            rw [gsv_step_noval n h1 h2 h3] at hrun
            rcases akoNext_cases hrun with ⟨p, hp⟩ | ⟨_, rfl⟩
            · intro g
              exact (ih hp g).trans (hview g)
            · exact hview

/-- The AKO view determines which names resolve. -/
theorem akoView_isSome {env2 env : Env}
    (hv : ∀ g, akoView env2 g = akoView env g) (p : String) :
    (findFrame env2 p).isSome = (findFrame env p).isSome := by
  have h := hv p
  unfold akoView at h
  cases h2 : findFrame env2 p <;> cases h1 : findFrame env p <;>
    rw [h2, h1] at h <;> simp_all

/-- Heaps with the same AKO view have the same chain-step function. -/
theorem parentName_congr {env2 env : Env}
    (hv : ∀ g, akoView env2 g = akoView env g) :
    ∀ g, parentName env2 g = parentName env g := by
  intro g
  unfold parentName
  rw [hv g]
  cases hA : akoView env g with
  | none => rfl
  | some ov =>
    cases ov with
    | none => rfl
    | some val =>
      cases val
      case frameRef p =>
        show (if (findFrame env2 p).isSome = true then some p else none)
          = (if (findFrame env p).isSome = true then some p else none)
        rw [akoView_isSome hv p]
      all_goals rfl

/-- Heaps with the same chain-step function bound the same chains. -/
theorem chainBoundedB_congr {env2 env : Env}
    (hp : ∀ g, parentName env2 g = parentName env g) :
    ∀ (n : Nat) (g : String), chainBoundedB n env2 g = chainBoundedB n env g := by
  intro n
  induction n with
  | zero => intro g; rfl
  | succ n ih =>
    intro g
    unfold chainBoundedB
    rw [hp g]
    cases hP : parentName env g with
    | none => rfl
    | some p =>
      show chainBoundedB n env2 p = chainBoundedB n env p
      exact ih p

/-- A bounded chain stays bounded one step down. -/
theorem chainBounded_step {n : Nat} {env : Env} {fname p : String}
    (h : chainBoundedB (n + 1) env fname = true)
    (hp : parentName env fname = some p) : chainBoundedB n env p = true := by
  unfold chainBoundedB at h
  rw [hp] at h
  exact h

/-- The chain-step function computed from a found frame and its AKO
reference. -/
theorem parentName_of {env : Env} {fname p : String} {f pf : Frame}
    (h1 : findFrame env fname = some f)
    (h4 : f.akoValue = some (.frameRef p))
    (h5 : findFrame env p = some pf) : parentName env fname = some p := by
  unfold parentName akoView
  rw [h1]
  simp [h4, h5]

/-- A `get_slot_value` walk from a frame whose AKO chain dies out within
the fuel bound terminates (for any slot other than the AKO backlink
itself, whose read could rewrite the chain mid-walk). -/
theorem gsv_terminates : ∀ (n : Nat) (env : Env) (fname sname : String),
    chainBoundedB n env fname = true → sname ≠ "AKO" →
    (getSlotValueF n env fname sname).isSome = true := by
  intro n
  induction n with
  | zero =>
    intro env fname sname hcb _
    exact Bool.noConfusion hcb
  | succ n ih =>
    intro env fname sname hcb hs
    cases h1 : findFrame env fname with
    | none =>
      rw [gsv_step_nofr n sname h1]
      rfl
    | some f =>
      have hcont : (akoNext n env f sname).isSome = true
          ∨ ∃ p, f.akoValue = some (.frameRef p)
            ∧ (findFrame env p).isSome = true
            ∧ akoNext n env f sname = getSlotValueF n env p sname := by
        cases h4 : f.akoValue with
        | none => exact Or.inl (by simp [akoNext, h4])
        | some val =>
          cases val
          case frameRef p =>
            cases h5 : findFrame env p with
            | some pf =>
              exact Or.inr ⟨p, rfl, by rw [h5]; rfl, akoNext_rec n sname pf h4 h5⟩
            | none => exact Or.inl (by simp [akoNext, h4, h5])
          all_goals exact Or.inl (by simp [akoNext, h4])
      cases h2 : f.get_slot sname with
      | none =>
        rw [gsv_step_noslot n f h1 h2]
        rcases hcont with hdone | ⟨p, h4, h5, heq⟩
        · exact hdone
        · rw [heq]
          obtain ⟨pf, h5'⟩ := Option.isSome_iff_exists.mp h5
          exact ih env p sname
            (chainBounded_step hcb (parentName_of h1 h4 h5')) hs
      | some slot =>
        have hps := List.find?_some h2
        have hsname : slot.name = sname := beq_iff_eq.mp hps
        have hflds := get_value_fields slot fname
        cases h3 : slot.get_value fname with
        | mk rv slot1 =>
          rw [h3] at hflds
          cases rv with
          | some v =>
            rw [gsv_step_val n h1 h2 h3]
            rfl
          | none =>
            rw [gsv_step_noval n h1 h2 h3]
            have hne : (slot1.name == "AKO") = false := by
              cases hc : (slot1.name == "AKO")
              · rfl
              · exfalso
                apply hs
                rw [← hsname, ← hflds.1]
                exact beq_iff_eq.mp hc
            have hako := add_slot_akoValue f hne
            have hview := akoView_update (f.add_slot slot1) h1 rfl hako
            cases h4 : f.akoValue with
            | none =>
              simp [akoNext, hako, h4]
            | some val =>
              cases val
              case frameRef p =>
                cases h5 : findFrame env p with
                | some pf =>
                  have h5' : (findFrame (updateFrame env (f.add_slot slot1)) p).isSome = true := by
                    rw [akoView_isSome hview p, h5]
                    rfl
                  obtain ⟨pf1, h5''⟩ := Option.isSome_iff_exists.mp h5'
                  rw [akoNext_rec n sname pf1 (hako.trans h4) h5'']
                  have hcb1 : chainBoundedB n env p = true :=
                    chainBounded_step hcb (parentName_of h1 h4 h5)
                  have hcb2 : chainBoundedB n (updateFrame env (f.add_slot slot1)) p = true := by
                    rw [chainBoundedB_congr (parentName_congr hview) n p]
                    exact hcb1
                  exact ih _ p sname hcb2 hs
                | none =>
                  have h5' : findFrame (updateFrame env (f.add_slot slot1)) p = none := by
                    have hx := akoView_isSome hview p
                    rw [h5] at hx
                    cases hc : findFrame (updateFrame env (f.add_slot slot1)) p
                    · rfl
                    · rw [hc] at hx
                      exact Bool.noConfusion hx
                  simp [akoNext, hako, h4, h5']
              all_goals simp [akoNext, hako, h4]

/-- An `is_a` walk from a frame whose AKO chain dies out within the fuel
bound terminates. -/
theorem isa_terminates : ∀ (n : Nat) (env : Env) (fname ftype : String),
    chainBoundedB n env fname = true → (isAF n env fname ftype).isSome = true := by
  intro n
  induction n with
  | zero =>
    intro env fname ftype hcb
    exact Bool.noConfusion hcb
  | succ n ih =>
    intro env fname ftype hcb
    cases h1 : findFrame env fname with
    | none => simp [isAF, h1]
    | some f =>
      by_cases hn : (f.name == ftype) = true
      · simp [isAF, h1, hn]
      · cases h4 : f.akoValue with
        | none => simp [isAF, h1, hn, h4]
        | some val =>
          cases val
          all_goals try (simp [isAF, h1, hn, h4]; done)
          rename_i p
          cases h5 : findFrame env p with
          | some pf =>
            have hstep : isAF (n + 1) env fname ftype = isAF n env p ftype := by
              simp [isAF, h1, hn, h4, h5]
            rw [hstep]
            exact ih env p ftype (chainBounded_step hcb (parentName_of h1 h4 h5))
          | none => simp [isAF, h1, hn, h4, h5]

/-- C4 (amended): the source walks carry no cycle defense.  Every
`get_slot_value` lookup (of a slot other than the AKO backlink itself) and
every `is_a` walk terminates when the frame's AKO chain is finite —
bounded by the chain length — but on a frame whose AKO chain contains a
cycle an unresolvable lookup or type check does not terminate (see the
counterexample). -/
theorem C4_bounded_walks :
    (∀ (n : Nat) (env : Env) (fname sname : String),
        chainBoundedB n env fname = true → sname ≠ "AKO" →
        (getSlotValueF n env fname sname).isSome = true)
    ∧ (∀ (n : Nat) (env : Env) (fname ftype : String),
        chainBoundedB n env fname = true →
        (isAF n env fname ftype).isSome = true) :=
  ⟨gsv_terminates, isa_terminates⟩

/-- C4 witness: on the acyclic chain C → B2 → A2, a three-step bound
suffices for both the slot lookup and the type check. -/
theorem C4_witness :
    (getSlotValueF 3 chainEnv "C" "жанр").isSome = true
    ∧ (isAF 3 chainEnv "C" "A2").isSome = true :=
  ⟨C4_bounded_walks.1 3 chainEnv "C" "жанр" (by decide) (by decide),
   C4_bounded_walks.2 3 chainEnv "C" "A2" (by decide)⟩

/-- One step of the looping lookup on the cyclic heap: A defers to B and B
defers to A. -/
theorem cyc_get_step (n : Nat) :
    getSlotValueF (n + 1) cycEnv "A" "жанр" = getSlotValueF n cycEnv "B" "жанр"
    ∧ getSlotValueF (n + 1) cycEnv "B" "жанр" = getSlotValueF n cycEnv "A" "жанр" := by
  constructor
  · have h1 : findFrame cycEnv "A" = some ((Frame.init "A").set_ako (.frameRef "B")) := rfl
    have h2 : ((Frame.init "A").set_ako (.frameRef "B")).get_slot "жанр" = none := rfl
    have h4 : ((Frame.init "A").set_ako (.frameRef "B")).akoValue
        = some (.frameRef "B") := rfl
    have h5 : findFrame cycEnv "B" = some ((Frame.init "B").set_ako (.frameRef "A")) := rfl
    rw [gsv_step_noslot n _ h1 h2, akoNext_rec n "жанр" _ h4 h5]
  · have h1 : findFrame cycEnv "B" = some ((Frame.init "B").set_ako (.frameRef "A")) := rfl
    have h2 : ((Frame.init "B").set_ako (.frameRef "A")).get_slot "жанр" = none := rfl
    have h4 : ((Frame.init "B").set_ako (.frameRef "A")).akoValue
        = some (.frameRef "A") := rfl
    have h5 : findFrame cycEnv "A" = some ((Frame.init "A").set_ako (.frameRef "B")) := rfl
    rw [gsv_step_noslot n _ h1 h2, akoNext_rec n "жанр" _ h4 h5]

/-- The looping lookup exhausts every fuel bound on both cycle members. -/
theorem cyc_get_none (n : Nat) :
    getSlotValueF n cycEnv "A" "жанр" = none
    ∧ getSlotValueF n cycEnv "B" "жанр" = none := by
  induction n with
  | zero => exact ⟨rfl, rfl⟩
  | succ n ih => exact ⟨(cyc_get_step n).1.trans ih.2, (cyc_get_step n).2.trans ih.1⟩

/-- One step of the looping type check on the cyclic heap. -/
theorem cyc_isa_step (n : Nat) :
    isAF (n + 1) cycEnv "A" "Игра" = isAF n cycEnv "B" "Игра"
    ∧ isAF (n + 1) cycEnv "B" "Игра" = isAF n cycEnv "A" "Игра" := by
  constructor
  · simp [isAF, cycEnv, findFrame, Frame.set_ako, Frame.init, akoSlot,
      Slot.init, slotsSetValueRaw, Frame.akoValue, Frame.get_slot]
  · simp [isAF, cycEnv, findFrame, Frame.set_ako, Frame.init, akoSlot,
      Slot.init, slotsSetValueRaw, Frame.akoValue, Frame.get_slot]

/-- The looping type check exhausts every fuel bound on both cycle
members. -/
theorem cyc_isa_none (n : Nat) :
    isAF n cycEnv "A" "Игра" = none ∧ isAF n cycEnv "B" "Игра" = none := by
  induction n with
  | zero => exact ⟨rfl, rfl⟩
  | succ n ih => exact ⟨(cyc_isa_step n).1.trans ih.2, (cyc_isa_step n).2.trans ih.1⟩

/-- C4 counterexample: on the concrete cyclic heap A ako B ako A, the
lookup of an undeclared slot and the check against a type name not on the
cycle exhaust every fuel bound: the unbounded source recursion of
`get_slot_value` and the unbounded `while` of `is_a` never terminate
there, so the claimed cycle defense does not exist. -/
theorem C4_counterexample :
    getDiverges cycEnv "A" "жанр" ∧ isaDiverges cycEnv "A" "Игра" :=
  ⟨fun n => (cyc_get_none n).1, fun n => (cyc_isa_none n).1⟩

/-- `getSV` (the engine's view of `get_slot_value`) preserves the AKO view
for every slot name other than AKO. -/
theorem getSV_akoView {fuel : Nat} {env : Env} {fname sname : String}
    (hs : sname ≠ "AKO") :
    ∀ g, akoView (getSV fuel env fname sname).2 g = akoView env g := by
  unfold getSV
  cases h : getSlotValueF fuel env fname sname with
  | none => intro g; rfl
  | some r =>
    cases r with
    | mk rv env2 => exact gsv_akoView h hs

/-- The recommendation-record backlink read, through the AKO view. -/
theorem akoNameInEnv_eq_view (env : Env) (p : String) :
    akoNameInEnv env p
      = (match akoView env p with
         | some (some (.frameRef q)) => some q
         | _ => none) := by
  unfold akoNameInEnv akoView
  cases findFrame env p with
  | none => rfl
  | some f =>
    show (match f.akoValue with
          | some (.frameRef q) => some q
          | _ => none)
        = (match some f.akoValue with
           | some (some (.frameRef q)) => some q
           | _ => none)
    cases f.akoValue with
    | none => rfl
    | some val => cases val <;> rfl

/-- Heaps with the same AKO view resolve the same backlink names. -/
theorem akoNameInEnv_congr {env2 env : Env}
    (hv : ∀ g, akoView env2 g = akoView env g) (p : String) :
    akoNameInEnv env2 p = akoNameInEnv env p := by
  rw [akoNameInEnv_eq_view, akoNameInEnv_eq_view, hv p]

/-- The record-building fold of `get_all_recommendations` emits the record
games in the order of the proto list it iterates — one per proto with a
resolvable backlink — and preserves the AKO view of the heap it started
from. -/
theorem gar_fold (fuel : Nat) (env0 : Env) :
    ∀ (l : List String) (acc : List Recommendation × Env),
      (∀ g, akoView acc.2 g = akoView env0 g) →
      ((l.foldl (garStep fuel) acc).1.map (fun r => r.game)
        = acc.1.map (fun r => r.game) ++ l.filterMap (akoNameInEnv env0))
      ∧ (∀ g, akoView (l.foldl (garStep fuel) acc).2 g = akoView env0 g) := by
  intro l
  induction l with
  | nil =>
    intro acc hview
    exact ⟨by simp, hview⟩
  | cons p l ih =>
    intro acc hview
    have hview1 : ∀ g, akoView (getSV fuel acc.2 p "совместимость").2 g
        = akoView env0 g := fun g =>
      (getSV_akoView (by decide) g).trans (hview g)
    have hako_p : akoNameInEnv (getSV fuel acc.2 p "совместимость").2 p
        = akoNameInEnv env0 p := akoNameInEnv_congr hview1 p
    rw [List.foldl_cons]
    cases hg : akoNameInEnv (getSV fuel acc.2 p "совместимость").2 p with
    | some g =>
      have hstep1 : (garStep fuel acc p).1
          = acc.1 ++ [⟨g,
              pyOr0 (getSV fuel acc.2 p "совместимость").1,
              (getSV fuel (getSV fuel acc.2 p "совместимость").2 p
                "требуемая_платформа").1,
              (getSV fuel (getSV fuel (getSV fuel acc.2 p "совместимость").2 p
                "требуемая_платформа").2 p "требуемый_жанр").1,
              (getSV fuel (getSV fuel (getSV fuel (getSV fuel acc.2 p
                "совместимость").2 p "требуемая_платформа").2 p
                "требуемый_жанр").2 p "рекомендуемая_длина_сессии").1⟩] := by
        simp only [garStep, hg]
      have hstep2 : (garStep fuel acc p).2
          = (getSV fuel (getSV fuel (getSV fuel (getSV fuel acc.2 p
              "совместимость").2 p "требуемая_платформа").2 p
              "требуемый_жанр").2 p "рекомендуемая_длина_сессии").2 := by
        simp only [garStep, hg]
      have hview2 : ∀ g2, akoView (garStep fuel acc p).2 g2 = akoView env0 g2 := by
        intro g2
        rw [hstep2]
        exact (getSV_akoView (by decide) g2).trans
          ((getSV_akoView (by decide) g2).trans
            ((getSV_akoView (by decide) g2).trans (hview1 g2)))
      obtain ⟨iha, ihb⟩ := ih (garStep fuel acc p) hview2
      refine ⟨?_, ihb⟩
      rw [iha, hstep1, List.map_append, List.filterMap_cons,
        ← hako_p, hg, List.append_assoc]
      rfl
    | none =>
      have hstep1 : (garStep fuel acc p).1 = acc.1 := by
        simp only [garStep, hg]
      have hstep2 : (garStep fuel acc p).2
          = (getSV fuel acc.2 p "совместимость").2 := by
        simp only [garStep, hg]
      have hview2 : ∀ g2, akoView (garStep fuel acc p).2 g2 = akoView env0 g2 := by
        intro g2
        rw [hstep2]
        exact hview1 g2
      obtain ⟨iha, ihb⟩ := ih (garStep fuel acc p) hview2
      refine ⟨?_, ihb⟩
      rw [iha, hstep1, List.filterMap_cons, ← hako_p, hg]

/-- C1 (amended): `get_all_recommendations` draws its records from all
proto frames of the run — qualifying or not — truncated to the requested
count, in the proto list's creation order (catalog declaration order), not
in ranked order: the emitted game names are exactly the resolvable AKO
backlinks of the first `limit` protos, in that order, and at most `limit`
records are returned.  The descending-compatibility ranking exists only in
the list `frame_based_inference` itself returns. -/
theorem C1_records_in_creation_order (fuel : Nat) (env : Env)
    (protos : List String) (limit : Nat) :
    ((get_all_recommendations fuel env protos limit).1.map (fun r => r.game)
      = (protos.take limit).filterMap (akoNameInEnv env))
    ∧ (get_all_recommendations fuel env protos limit).1.length ≤ limit := by
  have h := gar_fold fuel env (protos.take limit) ([], env) (fun g => rfl)
  constructor
  · exact h.1.trans (by rw [List.map_nil, List.nil_append])
  · have h2 : (get_all_recommendations fuel env protos limit).1.map
        (fun r => r.game) = (protos.take limit).filterMap (akoNameInEnv env) :=
      h.1.trans (by rw [List.map_nil, List.nil_append])
    have hlen : (get_all_recommendations fuel env protos limit).1.length
        = ((protos.take limit).filterMap (akoNameInEnv env)).length := by
      calc (get_all_recommendations fuel env protos limit).1.length
          = ((get_all_recommendations fuel env protos limit).1.map
              (fun r => r.game)).length := (List.length_map _ _).symm
        _ = ((protos.take limit).filterMap (akoNameInEnv env)).length := by
            rw [h2]
    rw [hlen]
    calc ((protos.take limit).filterMap (akoNameInEnv env)).length
        ≤ (protos.take limit).length := List.length_filterMap_le _ _
      _ ≤ limit := by
          rw [List.length_take]
          exact min_le_left _ _

/-- C1 counterexample: in the concrete two-game run only Proto_G2
qualifies (compatibility 1), yet `get_all_recommendations` returns the
record of the non-qualifying G1 first with compatibility 0 and G2 second —
records drawn from all protos in catalog order, not from the qualifying
protos in descending-compatibility order. -/
theorem C1_counterexample :
    ((get_all_recommendations 10 cexRun.2.2 cexRun.2.1 5).1.map (fun r => r.game)
      = ["G1", "G2"])
    ∧ ((get_all_recommendations 10 cexRun.2.2 cexRun.2.1 5).1.map
        (fun r => r.compatibility) = [0, 1])
    ∧ cexRun.1 = ["Proto_G2"] := by
  refine ⟨by decide, by decide, by decide⟩

/-- A triggerless slot is returned unchanged by `get_value`. -/
theorem get_value_no_trigger {s : Slot} (ctx : String)
    (h : s.if_needed = none) : (s.get_value ctx).2 = s := by
  unfold Slot.get_value
  split_ifs
  · rfl
  · rw [h]
  · rfl

/-- Re-adding the slot that lookup found leaves the frame unchanged. -/
theorem add_slot_found {f : Frame} {sname : String} {slot : Slot}
    (h : f.get_slot sname = some slot) : f.add_slot slot = f := by
  unfold Frame.add_slot
  rw [slotsUpdate_found h]

/-- Under `NTF`, the slot a walk reads carries no trigger. -/
theorem ntf_member {env : Env} {sname fname : String} {f : Frame} {slot : Slot}
    (hntf : NTF env sname) (h1 : findFrame env fname = some f)
    (h2 : f.get_slot sname = some slot) : slot.if_needed = none := by
  have hps := List.find?_some h2
  have hm : slot ∈ f.slots := List.mem_of_find?_eq_some h2
  exact Option.isNone_iff_eq_none.mp
    (hntf f (findFrame_mem h1) slot hm (beq_iff_eq.mp hps))

/-- Under `NTF`, a terminating walk for that slot name returns the heap
unchanged: no IF-NEEDED caching can occur. -/
theorem ntf_gsv {sname : String} {env : Env} (hntf : NTF env sname) :
    ∀ (n : Nat) (fname : String) (r : Option Value) (env2 : Env),
      getSlotValueF n env fname sname = some (r, env2) → env2 = env := by
  intro n
  induction n with
  | zero =>
    intro fname r env2 hrun
    exact Option.noConfusion hrun
  | succ n ih =>
    intro fname r env2 hrun
    cases h1 : findFrame env fname with
    | none =>
      rw [gsv_step_nofr n sname h1] at hrun
      injection hrun with hrun
      injection hrun with _ hb
      exact hb.symm
    | some f =>
      cases h2 : f.get_slot sname with
      | none =>
        rw [gsv_step_noslot n f h1 h2] at hrun
        rcases akoNext_cases hrun with ⟨p, hp⟩ | ⟨_, rfl⟩
        · exact ih p r env2 hp
        · rfl
      | some slot =>
        have hnt : slot.if_needed = none := ntf_member hntf h1 h2
        have hval2 : (slot.get_value fname).2 = slot := get_value_no_trigger fname hnt
        cases h3 : slot.get_value fname with
        | mk rv slot1 =>
          rw [h3] at hval2
          have hslot1 : slot1 = slot := hval2
          have hadd : f.add_slot slot1 = f := by
            rw [hslot1]
            exact add_slot_found h2
          have hupd : updateFrame env (f.add_slot slot1) = env := by
            rw [hadd]
            apply updateFrame_found
            rw [findFrame_name h1]
            exact h1
          cases rv with
          | some v =>
            rw [gsv_step_val n h1 h2 h3] at hrun
            injection hrun with hrun
            injection hrun with _ hb
            rw [← hb]
            exact hupd
          | none =>
            rw [gsv_step_noval n h1 h2 h3] at hrun
            rw [hupd, hadd] at hrun
            rcases akoNext_cases hrun with ⟨p, hp⟩ | ⟨_, rfl⟩
            · exact ih p r env2 hp
            · rfl

/-- Under `NTF`, the engine's `getSV` never mutates the heap. -/
theorem ntf_getSV {sname : String} {env : Env} (fuel : Nat)
    (hntf : NTF env sname) (fname : String) :
    (getSV fuel env fname sname).2 = env := by
  unfold getSV
  cases h : getSlotValueF fuel env fname sname with
  | none => rfl
  | some r =>
    cases r with
    | mk rv env2 => exact ntf_gsv hntf fuel fname rv env2 h

/-- Under `NTF` on compatibility slots, one key evaluation is the static
key with the heap unchanged. -/
theorem ntf_compatKeyE {env : Env} (fuel : Nat)
    (hntf : NTF env "совместимость") (p : String) :
    compatKeyE fuel env p = (staticKey fuel env p, env) := by
  unfold compatKeyE staticKey
  show (pyOr0 (getSV fuel env p "совместимость").1,
    (getSV fuel env p "совместимость").2) = _
  rw [ntf_getSV fuel hntf p]

/-- Under `NTF` on compatibility slots, the Python `max` fold computes the
first-maximal proto under the static key, with the heap unchanged. -/
theorem gbr_fold {env : Env} (fuel : Nat) (hntf : NTF env "совместимость") :
    ∀ (l : List String) (b : String),
      l.foldl (gbrStep fuel) (b, staticKey fuel env b, env)
        = (pyMaxBy (staticKey fuel env) b l,
           staticKey fuel env (pyMaxBy (staticKey fuel env) b l), env) := by
  intro l
  induction l with
  | nil => intro b; rfl
  | cons y l ih =>
    intro b
    rw [List.foldl_cons]
    have hstep : gbrStep fuel (b, staticKey fuel env b, env) y
        = ((if staticKey fuel env y > staticKey fuel env b then y else b),
           staticKey fuel env
             (if staticKey fuel env y > staticKey fuel env b then y else b),
           env) := by
      unfold gbrStep
      rw [ntf_compatKeyE fuel hntf y]
      by_cases hc : staticKey fuel env y > staticKey fuel env b <;> simp [hc]
    rw [hstep, ih]
    rfl

/-- Python max over a nonempty list returns its first maximal element. -/
theorem pyMaxBy_isFirstMax (key : String → ℚ) :
    ∀ (l : List String) (x : String), isFirstMax key (x :: l) (pyMaxBy key x l) := by
  intro l
  induction l with
  | nil =>
    intro x
    refine ⟨[], [], rfl, fun y hy => absurd hy (List.not_mem_nil y), ?_⟩
    intro y hy
    rcases List.mem_singleton.mp hy with rfl
    exact le_refl _
  | cons y l ih =>
    intro x
    have hstep : pyMaxBy key x (y :: l)
        = pyMaxBy key (if key y > key x then y else x) l := rfl
    by_cases hc : key y > key x
    · rw [hstep, if_pos hc]
      obtain ⟨pre, post, hdec, hpre, hall⟩ := ih y
      have hyw : key y ≤ key (pyMaxBy key y l) := hall y (List.mem_cons_self _ _)
      refine ⟨x :: pre, post, ?_, ?_, ?_⟩
      · rw [List.cons_append, ← hdec]
      · intro z hz
        rcases List.mem_cons.mp hz with rfl | hz2
        · exact lt_of_lt_of_le hc hyw
        · exact hpre z hz2
      · intro z hz
        rcases List.mem_cons.mp hz with rfl | hz2
        · exact le_of_lt (lt_of_lt_of_le hc hyw)
        · exact hall z hz2
    · rw [hstep, if_neg hc]
      obtain ⟨pre, post, hdec, hpre, hall⟩ := ih x
      have hyx : key y ≤ key x := le_of_not_lt hc
      have hxw : key x ≤ key (pyMaxBy key x l) := hall x (List.mem_cons_self _ _)
      cases pre with
      | nil =>
        rw [List.nil_append] at hdec
        have h1 : x = pyMaxBy key x l := congrArg List.headI hdec
        refine ⟨[], y :: l, ?_, ?_, ?_⟩
        · rw [List.nil_append, ← h1]
        · intro z hz
          exact absurd hz (List.not_mem_nil z)
        · intro z hz
          rcases List.mem_cons.mp hz with hzx | hz2
          · rw [hzx]
            exact hxw
          · rcases List.mem_cons.mp hz2 with hzy | hz3
            · rw [hzy]
              exact le_trans hyx hxw
            · exact hall z (List.mem_cons_of_mem _ hz3)
      | cons a pre2 =>
        rw [List.cons_append] at hdec
        have ha : x = a := congrArg List.headI hdec
        have hb : l = pre2 ++ pyMaxBy key x l :: post := congrArg List.tail hdec
        have hxlt : key x < key (pyMaxBy key x l) := by
          nth_rewrite 1 [ha]
          exact hpre a (List.mem_cons_self _ _)
        refine ⟨x :: y :: pre2, post, ?_, ?_, ?_⟩
        · rw [List.cons_append, List.cons_append, ← hb]
        · intro z hz
          rcases List.mem_cons.mp hz with hzx | hz2
          · rw [hzx]
            exact hxlt
          · rcases List.mem_cons.mp hz2 with hzy | hz3
            · rw [hzy]
              exact lt_of_le_of_lt hyx hxlt
            · exact hpre z (List.mem_cons_of_mem _ hz3)
        · intro z hz
          rcases List.mem_cons.mp hz with hzx | hz2
          · rw [hzx]
            exact hxw
          · rcases List.mem_cons.mp hz2 with hzy | hz3
            · rw [hzy]
              exact hyx.trans hxw
            · exact hall z (List.mem_cons_of_mem _ hz3)

/-- C10: over a heap in which every proto frame of the run carries a
resolvable AKO backlink (the run creates every proto that way) and no
compatibility slot bears an IF-NEEDED trigger (no frame of the shipped
knowledge base declares a compatibility slot at all, and the run creates
proto compatibility slots triggerless), `get_best_recommendation` returns
`None` exactly on an empty proto list; on a nonempty list it returns the
AKO target name of the first proto maximizing the compatibility-or-0 key —
all protos considered, qualifying or not, an absent slot read as 0, ties
resolved to the earliest proto in creation (catalog declaration) order —
and that result is always a game name. -/
theorem C10_best_over_all_protos (fuel : Nat) (env : Env) (protos : List String)
    (hako : ∀ p ∈ protos, (akoNameInEnv env p).isSome = true)
    (hntf : NTF env "совместимость") :
    (protos = [] → (get_best_recommendation fuel env protos).1 = none)
    ∧ (protos ≠ [] →
        ∃ p, isFirstMax (staticKey fuel env) protos p
          ∧ (get_best_recommendation fuel env protos).1 = akoNameInEnv env p
          ∧ ((get_best_recommendation fuel env protos).1).isSome = true) := by
  constructor
  · rintro rfl
    rfl
  · intro hne
    cases protos with
    | nil => exact absurd rfl hne
    | cons p rest =>
      have hfm := pyMaxBy_isFirstMax (staticKey fuel env) rest p
      have hwmem : pyMaxBy (staticKey fuel env) p rest ∈ p :: rest := by
        obtain ⟨pre, post, hdec, _, _⟩ := hfm
        rw [hdec]
        exact List.mem_append_right _ (List.mem_cons_self _ _)
      obtain ⟨g, hg⟩ := Option.isSome_iff_exists.mp (hako _ hwmem)
      have hk : compatKeyE fuel env p = (staticKey fuel env p, env) :=
        ntf_compatKeyE fuel hntf p
      have hfold : rest.foldl (gbrStep fuel)
          (p, (compatKeyE fuel env p).1, (compatKeyE fuel env p).2)
          = (pyMaxBy (staticKey fuel env) p rest,
             staticKey fuel env (pyMaxBy (staticKey fuel env) p rest), env) := by
        rw [hk]
        exact gbr_fold fuel hntf rest p
      have hred : get_best_recommendation fuel env (p :: rest) = (some g, env) := by
        show (match akoNameInEnv (rest.foldl (gbrStep fuel)
            (p, (compatKeyE fuel env p).1, (compatKeyE fuel env p).2)).2.2
            (rest.foldl (gbrStep fuel)
              (p, (compatKeyE fuel env p).1, (compatKeyE fuel env p).2)).1 with
          | some g2 => (some g2, (rest.foldl (gbrStep fuel)
              (p, (compatKeyE fuel env p).1, (compatKeyE fuel env p).2)).2.2)
          | none => (none, (rest.foldl (gbrStep fuel)
              (p, (compatKeyE fuel env p).1, (compatKeyE fuel env p).2)).2.2))
          = (some g, env)
        rw [hfold]
        show (match akoNameInEnv env (pyMaxBy (staticKey fuel env) p rest) with
          | some g2 => (some g2, env)
          | none => (none, env)) = (some g, env)
        rw [hg]
      refine ⟨pyMaxBy (staticKey fuel env) p rest, hfm, ?_, ?_⟩
      · rw [hred, hg]
      · rw [hred]
        rfl

/-- C10 witness: a run over a one-game catalog in which nothing qualifies
as a match still yields a best recommendation (the sole proto's game). -/
theorem C10_witness :
    ((get_best_recommendation 10 wRun.2.2 wRun.2.1).1).isSome = true
    ∧ wRun.1 = [] := by
  obtain ⟨p, _, _, hsome⟩ :=
    (C10_best_over_all_protos 10 wRun.2.2 wRun.2.1 (by decide) (by decide)).2
      (by decide)
  exact ⟨hsome, by decide⟩

/-- C2 counterexample: the claim quantifies over all frames, but the
loader constructs slots without validation, so a knowledge file can put a
TEXT value into an INTEGER slot; `get_slot_value` then returns that value
even though no slot of that name in the heap validates it. -/
theorem C2_counterexample :
    getSlotValueF 1 c2badEnv "Ф" "год_выпуска"
      = some (some (.str "давно"), c2badEnv)
    ∧ ¬ ValidFor c2badEnv "год_выпуска" (.str "давно") := by
  constructor
  · rfl
  · decide

/-- C2 witness: a well-formed three-frame chain; the inherited genre value
resolves through two AKO links and is validated by the declaring slot. -/
theorem C2_witness :
    EnvOk chainEnv ∧ ValidFor chainEnv "жанр" (.str "экшен") := by
  have h := C2_valid_or_absent 3 chainEnv "C" "жанр" (some (.str "экшен"))
    chainEnv (by decide) rfl
  exact ⟨h.1, h.2 _ rfl⟩

end Lab3
